import Mathlib

/-!
# Verification of the atomcrud_api schema metadata engine and query compiler

A shallow embedding of the column-metadata operations
(`src/db/column-functions.ts`), the search-query compiler
(`src/utils/search.ts`), the tag-value normalizer
(`src/utils/process-tag-value.ts`) and the row patch/validation layer
(`src/db/row-functions.ts`) of the atomcrud_api repository, together with
theorems settling the behavioural claims about them.

Modelling conventions:
* JavaScript objects used as string-keyed maps (`metadata.tables[t].columns`)
  are modelled as insertion-ordered association lists `List (String × _)`
  with distinct keys (JS objects guarantee key uniqueness).
* The physical SQLite layer (`better-sqlite3`) and the filesystem are
  external collaborators; functions here model the metadata transition of a
  single table, which is all the claims concern.  Every `throw` in the
  source precedes the single `fs.writeFileSync` of the mutated metadata, so
  an error result models "no state change".
* JS numbers are modelled as `Rat` (exact for every value the claims
  touch); `NaN` is a distinct bind-value constructor where it can be pushed.
* The external `lucene-query-parser` dependency is not repository code; the
  compiler is modelled as a function of the parser's outcome, supplied as an
  explicit argument.
-/

deriving instance DecidableEq for Except

namespace AtomCrud

/-! ## JS string primitives -/

/-- JS `String.prototype.trim()` on a character list: drop leading and
trailing whitespace. -/
def jsTrimChars (cs : List Char) : List Char :=
  ((cs.dropWhile Char.isWhitespace).reverse.dropWhile Char.isWhitespace).reverse

/-- JS `trim()` as a string function. -/
def jsTrim (s : String) : String := ⟨jsTrimChars s.data⟩

/-- JS `toLowerCase()` (ASCII-faithful). -/
def jsToLower (s : String) : String := ⟨s.data.map Char.toLower⟩

/-- JS `toUpperCase()` (ASCII-faithful). -/
def jsToUpper (s : String) : String := ⟨s.data.map Char.toUpper⟩

/-- One step of `String.prototype.replace(/\s+/g, '_')`: collapse every
maximal whitespace run into a single underscore.  The boolean flag records
whether the previous character was part of a whitespace run. -/
def collapseWsChars : List Char → Bool → List Char
  | [], _ => []
  | c :: rest, prevWs =>
    if c.isWhitespace then
      (if prevWs then [] else ['_']) ++ collapseWsChars rest true
    else
      c :: collapseWsChars rest false

/-- `normalizeName` from `src/utils/normalize-name.ts`:
`name.trim().toLowerCase().replace(/\s+/g, '_')`. -/
def normalizeName (s : String) : String :=
  ⟨collapseWsChars ((jsTrimChars s.data).map Char.toLower) false⟩

/-- `String.prototype.split(/\s+/)`.  The pieces between whitespace runs are
returned, including an empty first piece when the string starts with
whitespace and an empty last piece when it ends with whitespace.  The
`Option` accumulator is `some acc` while inside a piece and `none` while
skipping a whitespace run. -/
def splitWsCore : List Char → Option (List Char) → List (List Char)
  | [], some acc => [acc.reverse]
  | [], none => [[]]
  | c :: rest, some acc =>
    if c.isWhitespace then acc.reverse :: splitWsCore rest none
    else splitWsCore rest (some (c :: acc))
  | c :: rest, none =>
    if c.isWhitespace then splitWsCore rest none
    else splitWsCore rest (some [c])

/-- JS `s.split(/\s+/)` as a list of strings. -/
def jsSplitWs (s : String) : List String :=
  (splitWsCore s.data (some [])).map fun cs => ⟨cs⟩

/-- A JS word character (`\w`): letter, digit or underscore (ASCII). -/
def isWordChar (c : Char) : Bool :=
  c.isAlpha || c.isDigit || c = '_'

/-- Rewrite one maximal `\w`-run: `and`/`or` (case-insensitive) become
`AND`/`OR`, everything else is unchanged.  This is exactly the effect of
`replace(/\band\b/gi, 'AND').replace(/\bor\b/gi, 'OR')` since a `\b`-bounded
match is a maximal word run. -/
def emitWordRun (run : List Char) : List Char :=
  if run.map Char.toLower = "and".data then "AND".data
  else if run.map Char.toLower = "or".data then "OR".data
  else run

/-- Walk the string, accumulating the current word run (reversed). -/
def replaceAndOrCore : List Char → List Char → List Char
  | [], run => emitWordRun run.reverse
  | c :: rest, run =>
    if isWordChar c then replaceAndOrCore rest (c :: run)
    else emitWordRun run.reverse ++ c :: replaceAndOrCore rest []

/-- The `and`/`or` → `AND`/`OR` preprocessing of `parseSearchQuery`. -/
def replaceAndOr (s : String) : String :=
  ⟨replaceAndOrCore s.data []⟩

/-! ## JS number parsing (decimal fragment)

`Number(x)` and `parseFloat(x)` are modelled on their decimal-literal
fragment (sign, digits, fraction, exponent), which covers every input the
program's claims exercise.  Hex/octal/binary literals and `Infinity` are
outside the modelled fragment. -/

/-- Split off a (possibly empty) maximal leading run of ASCII digits. -/
def takeDigits : List Char → List Char × List Char
  | [] => ([], [])
  | c :: rest =>
    if c.isDigit then
      let (ds, r) := takeDigits rest
      (c :: ds, r)
    else ([], c :: rest)

/-- Numeric value of a digit list (most significant first). -/
def digitsToNat (ds : List Char) : Nat :=
  ds.foldl (fun acc c => 10 * acc + (c.toNat - '0'.toNat)) 0

/-- Parse an optional `+`/`-` sign. -/
def takeSign : List Char → Bool × List Char
  | '-' :: rest => (true, rest)
  | '+' :: rest => (false, rest)
  | cs => (false, cs)

/-- Parse a decimal significand `digits[.digits]` (at least one digit
somewhere); returns numerator and denominator-power and the remaining
characters, so values can be assembled with `mkRat` (kernel-reducible). -/
def parseSignificand (cs : List Char) : Option (Nat × Nat × List Char) :=
  let (intDs, r1) := takeDigits cs
  match r1 with
  | '.' :: r2 =>
    let (fracDs, r3) := takeDigits r2
    if intDs = [] ∧ fracDs = [] then none
    else
      some (digitsToNat intDs * 10 ^ fracDs.length + digitsToNat fracDs,
        fracDs.length, r3)
  | _ =>
    if intDs = [] then none
    else some (digitsToNat intDs, 0, r1)

/-- Parse an optional exponent `e[+-]digits`; if the `e` is present but not
followed by digits, nothing is consumed (matching `parseFloat("1e") = 1`).
Returns the signed exponent and the remaining characters. -/
def parseExponent (cs : List Char) : Int × List Char :=
  match cs with
  | c :: r1 =>
    if c = 'e' ∨ c = 'E' then
      let (neg, r2) := takeSign r1
      let (ds, r3) := takeDigits r2
      if ds = [] then (0, cs)
      else if neg then (-(digitsToNat ds : Int), r3)
      else ((digitsToNat ds : Int), r3)
    else (0, cs)
  | [] => (0, cs)

/-- The longest decimal-literal prefix of `cs` with its value, or `none`. -/
def parseDecPrefix (cs : List Char) : Option (Rat × List Char) :=
  let (neg, r0) := takeSign cs
  match parseSignificand r0 with
  | none => none
  | some (m, f, r1) =>
    let (e, r2) := parseExponent r1
    let sm : Int := if neg then -(m : Int) else (m : Int)
    let v : Rat :=
      match e with
      | Int.ofNat k => mkRat (sm * (10 ^ k : Nat)) (10 ^ f)
      | Int.negSucc k => mkRat sm (10 ^ f * 10 ^ (k + 1))
    some (v, r2)

/-- JS `parseFloat`: skip leading whitespace, parse the longest decimal
prefix; `none` models `NaN`. -/
def jsParseFloat (s : String) : Option Rat :=
  match parseDecPrefix (s.data.dropWhile Char.isWhitespace) with
  | some (v, _) => some v
  | none => none

/-- JS `Number(x)` on strings: trim, empty means `0`, otherwise the whole
remaining string must be a decimal literal; `none` models `NaN`. -/
def jsNumber (s : String) : Option Rat :=
  let t := jsTrimChars s.data
  if t = [] then some 0
  else
    match parseDecPrefix t with
    | some (v, []) => some v
    | _ => none

/-! ## Data model -/

/-- A registered tag of a `single_tag`/`multi_tag` column. -/
structure TagDef where
  name : String
  description : String
  deriving DecidableEq, Repr

/-- The per-column record stored in `metadata.tables[t].columns[name]`.
Column types are the strings of the `ColumnType` union; `createColumn`
guarantees they are keys of `columnTypeMap`. -/
structure ColMeta where
  type : String
  hidden : Bool := false
  index : Int
  tags : Option (List TagDef) := none
  rule : Option String := none
  deriving DecidableEq, Repr

/-- A table's metadata record: visibility flag plus the insertion-ordered
column map. -/
structure Table where
  hidden : Bool := false
  columns : List (String × ColMeta)
  deriving DecidableEq, Repr

/-- The `ColumnDef` shape handed to the validator and the query compiler
(`getAllColumns` output: name joined with the stored record). -/
structure ColumnDef where
  name : String
  type : String
  hidden : Bool := false
  index : Int
  tags : Option (List TagDef) := none
  rule : Option String := none
  deriving DecidableEq, Repr

/-- View a stored column record as a `ColumnDef`. -/
def toColumnDef (name : String) (m : ColMeta) : ColumnDef :=
  { name := name, type := m.type, hidden := m.hidden, index := m.index,
    tags := m.tags, rule := m.rule }

/-- `columnTypeMap` from `src/utils/type-mapping.ts`. -/
def columnTypeMap : List (String × String) :=
  [("string", "TEXT"), ("boolean", "INTEGER"), ("integer", "INTEGER"),
   ("float", "REAL"), ("date", "INTEGER"), ("rating", "INTEGER"),
   ("advanced_rating", "REAL"), ("multi_tag", "TEXT"),
   ("single_tag", "TEXT"), ("rich_text", "TEXT"), ("link", "TEXT"),
   ("custom", "TEXT")]

/-- The protected column names (`untouchable` in `column-functions.ts`). -/
def untouchable : List String :=
  ["id", "title", "content", "date_created", "date_modified", "hidden"]

/-- Distinct error outcomes of the column-metadata functions; each
constructor corresponds to one `throw new Error(...)` site. -/
inductive DbError where
  | columnExists (name : String)
  | unknownType (t : String)
  | protectedColumn (name : String)
  | columnNotFound (name : String)
  | invalidIndex (name : String)
  | noColumnAtIndex (i : Int)
  | notTagType (name : String)
  | tagExists (tag : String) (col : String)
  deriving DecidableEq, Repr

/-! ## Association-list helpers (JS object semantics) -/

/-- The keys of a column map, in insertion order. -/
def keysOf (l : List (String × ColMeta)) : List String := l.map Prod.fst

/-- Look up a column record by key (`columns[name]`; JS objects have unique
keys, so the first match is the binding). -/
def lookupCol : List (String × ColMeta) → String → Option ColMeta
  | [], _ => none
  | (k', c) :: rest, k => if k' = k then some c else lookupCol rest k

/-- In-place update of one column's `index` field
(`columns[name].index = v`). -/
def setIdx (k : String) (v : Int) (l : List (String × ColMeta)) :
    List (String × ColMeta) :=
  l.map fun p => if p.1 = k then (p.1, { p.2 with index := v }) else p

/-- `delete columns[name]`. -/
def removeCol (k : String) (l : List (String × ColMeta)) :
    List (String × ColMeta) :=
  l.filter fun p => ¬ p.1 = k

/-- Indices of all columns, in insertion order. -/
def idxs (l : List (String × ColMeta)) : List Int := l.map fun p => p.2.index

/-! ## Column-metadata operations (`src/db/column-functions.ts`)

Each function models the metadata transition of one table.  In the source,
every `throw` happens before the metadata file is rewritten (and before any
destructive DDL for the error cases below), so an `Except.error` result
means the stored state is unchanged. -/

/-- `createColumn(dbId, table, rawName, customType, hidden, index?)`.
The assigned index is the explicit argument when given, else the current
column count; no other column's index is adjusted. -/
def createColumn (t : Table) (rawName customType : String) (hidden : Bool)
    (index : Option Int) : Except DbError Table :=
  let columnName := normalizeName rawName
  if (keysOf t.columns).contains columnName then
    .error (.columnExists columnName)
  else
    match (columnTypeMap.find? fun p => p.1 = customType).map Prod.snd with
    | none => .error (.unknownType customType)
    | some _ =>
      let assignedIndex := index.getD (Int.ofNat t.columns.length)
      let meta : ColMeta :=
        { type := customType, hidden := hidden, index := assignedIndex,
          tags := if customType = "multi_tag" ∨ customType = "single_tag"
            then some [] else none,
          rule := if customType = "custom" then some "" else none }
      .ok { t with columns := t.columns ++ [(columnName, meta)] }

/-- `swapColumnIndex(dbId, table, colName, targetIndex)`: the named column
and the first column whose index equals `targetIndex` trade index values.
Only the named column is tested against `untouchable`. -/
def swapColumnIndex (t : Table) (colName : String) (targetIndex : Int) :
    Except DbError Table :=
  let columnName := normalizeName colName
  if untouchable.contains columnName then
    .error (.protectedColumn columnName)
  else
    match lookupCol t.columns columnName with
    | none => .error (.columnNotFound columnName)
    | some c =>
      if c.index < 0 then .error (.invalidIndex columnName)
      else
        match t.columns.find? fun p => p.2.index = targetIndex with
        | none => .error (.noColumnAtIndex targetIndex)
        | some (targetColumnName, _) =>
          let cols' :=
            setIdx targetColumnName c.index
              (setIdx columnName targetIndex t.columns)
          .ok { t with columns := cols' }

/-- The index shift applied by `moveColumnIndex` to every column record
(entries with a negative index are skipped by the loop's guard). -/
def shiftIdx (oldIndex newIndex x : Int) : Int :=
  if x < 0 then x
  else if oldIndex < newIndex then
    if oldIndex < x ∧ x ≤ newIndex then x - 1 else x
  else
    if newIndex ≤ x ∧ x < oldIndex then x + 1 else x

/-- `moveColumnIndex(dbId, table, colName, newIndex)`: shift the indices of
the columns between the old and new position, then place the named column
at `newIndex`.  Returns the table unchanged when `newIndex` equals the
current index. -/
def moveColumnIndex (t : Table) (colName : String) (newIndex : Int) :
    Except DbError Table :=
  let columnName := normalizeName colName
  if untouchable.contains columnName then
    .error (.protectedColumn columnName)
  else
    match lookupCol t.columns columnName with
    | none => .error (.columnNotFound columnName)
    | some c =>
      if c.index < 0 then .error (.invalidIndex columnName)
      else if c.index = newIndex then .ok t
      else
        let shifted := t.columns.map fun p =>
          (p.1, { p.2 with index := shiftIdx c.index newIndex p.2.index })
        .ok { t with columns := setIdx columnName newIndex shifted }

/-- `deleteColumn(dbId, table, rawName)`: drop the column and decrement
every remaining index greater than the deleted one. -/
def deleteColumn (t : Table) (rawName : String) : Except DbError Table :=
  let columnName := normalizeName rawName
  if untouchable.contains columnName then
    .error (.protectedColumn columnName)
  else
    match lookupCol t.columns columnName with
    | none => .error (.columnNotFound columnName)
    | some c =>
      let deletedIndex := c.index
      let rest := removeCol columnName t.columns
      let rest' :=
        if 0 ≤ deletedIndex then
          rest.map fun p =>
            if deletedIndex < p.2.index then
              (p.1, { p.2 with index := p.2.index - 1 })
            else p
        else rest
      .ok { t with columns := rest' }

/-- `registerTag(dbId, table, columnName, tagName, description)`.  The
column name is looked up verbatim (not normalized); the tag name is
normalized.  Fails on non-tag column types and on duplicate tags. -/
def registerTag (t : Table) (columnName tagName description : String) :
    Except DbError Table :=
  match lookupCol t.columns columnName with
  | none => .error (.columnNotFound columnName)
  | some c =>
    if c.type ≠ "single_tag" ∧ c.type ≠ "multi_tag" then
      .error (.notTagType columnName)
    else
      let normalizedName := normalizeName tagName
      let tags := c.tags.getD []
      if tags.any fun td => td.name = normalizedName then
        .error (.tagExists normalizedName columnName)
      else
        let newTags := some (tags ++ [⟨normalizedName, jsTrim description⟩])
        let c' := { c with tags := newTags }
        let cols' :=
          t.columns.map fun p => if p.1 = columnName then (p.1, c') else p
        .ok { t with columns := cols' }

/-- `unregisterTag(dbId, table, columnName, tagName)`.  NOTE: the source's
type guard is `if (column.type === 'single_tag' || column.type ===
'multi_tag') throw ...` — it throws exactly when the column IS tag-typed,
and otherwise filters the (defaulted-to-empty) tag list and rewrites the
metadata.  Modelled verbatim. -/
def unregisterTag (t : Table) (columnName tagName : String) :
    Except DbError Table :=
  match lookupCol t.columns columnName with
  | none => .error (.columnNotFound columnName)
  | some c =>
    if c.type = "single_tag" ∨ c.type = "multi_tag" then
      .error (.notTagType columnName)
    else
      let normalizedName := normalizeName tagName
      let newTags :=
        some ((c.tags.getD []).filter fun td => ¬ td.name = normalizedName)
      let c' := { c with tags := newTags }
      let cols' :=
        t.columns.map fun p => if p.1 = columnName then (p.1, c') else p
      .ok { t with columns := cols' }

/-- JS object property assignment `columns[k] = v`: replace in place if the
key exists, else append. -/
def upsertCol (k : String) (v : ColMeta) (l : List (String × ColMeta)) :
    List (String × ColMeta) :=
  if (l.map Prod.fst).contains k then
    l.map fun p => if p.1 = k then (p.1, v) else p
  else l ++ [(k, v)]

/-- `updateColumnNameOrType(dbId, table, rawOldName, newName?, newType?)`:
optional rename (move the metadata entry to the new key) followed by an
optional destructive retype (metadata entry rebuilt; note the source's
`newType === 'tags'` check never fires since `'tags'` is not a
`columnTypeMap` key, so a retype never initializes a tag list). -/
def updateColumnNameOrType (t : Table) (rawOldName : String)
    (newName newType : Option String) : Except DbError Table :=
  let oldName := normalizeName rawOldName
  if untouchable.contains oldName then
    .error (.protectedColumn oldName)
  else
    match lookupCol t.columns oldName with
    | none => .error (.columnNotFound oldName)
    | some currentDef =>
      let finalName := (newName.map normalizeName).getD oldName
      let cols1 :=
        match newName with
        | some _ =>
          if finalName ≠ oldName then
            removeCol oldName (upsertCol finalName currentDef t.columns)
          else t.columns
        | none => t.columns
      match newType with
      | some nt =>
        if nt ≠ currentDef.type then
          match (columnTypeMap.find? fun p => p.1 = nt).map Prod.snd with
          | none => .error (.unknownType nt)
          | some _ =>
            let rebuilt : ColMeta :=
              { type := nt, hidden := currentDef.hidden,
                index := currentDef.index,
                tags := if nt = "tags" then some [] else none,
                rule := if nt = "custom" then some (currentDef.rule.getD "")
                  else none }
            .ok { t with columns := upsertCol finalName rebuilt cols1 }
        else .ok { t with columns := cols1 }
      | none => .ok { t with columns := cols1 }

/-- The column layout `createTable` writes for a fresh table
(`src/db/table-functions.ts`): the six protected columns at indices 0-5. -/
def initTable : Table :=
  { hidden := false,
    columns :=
      [("id", { type := "integer", index := 0 }),
       ("title", { type := "string", index := 1 }),
       ("content", { type := "rich_text", index := 2 }),
       ("date_created", { type := "date", index := 3 }),
       ("date_modified", { type := "date", index := 4 }),
       ("hidden", { type := "boolean", hidden := true, index := 5 })] }

/-! ## Query compiler (`src/utils/search.ts`)

`lucene-query-parser` is an external dependency; the compiler is modelled
as a function of its outcome (`LuceneOutcome`), supplied per call.  Array
results of the parser (grouped term lists) are outside the modelled
fragment; the claims only exercise single nodes and the failure fallback. -/

/-- A value pushed into the bind-parameter list.  `nan` models pushing a JS
`NaN` number (possible when `parseFloat` fails after a comparison op). -/
inductive BindVal where
  | num (q : Rat)
  | nan
  | str (s : String)
  deriving DecidableEq, Repr

/-- The `numericTypes` set. -/
def numericTypes : List String :=
  ["integer", "float", "rating", "advanced_rating", "date", "boolean"]

/-- Is `field` a positional reference `i<digits>` (regex `^i\d+$`)? -/
def isPosRef (field : String) : Bool :=
  match field.data with
  | 'i' :: ds => ¬ ds.isEmpty && ds.all Char.isDigit
  | _ => false

/-- `resolveFieldName(field, columns)`: positional `iN` reference or
case-insensitive column-name match. -/
def resolveFieldName (field : String) (columns : List ColumnDef) :
    Option String :=
  if field = "" then none
  else if isPosRef field then
    let index := Int.ofNat (digitsToNat field.data.tail)
    (columns.find? fun c => c.index = index).map ColumnDef.name
  else
    (columns.find? fun c => jsToLower c.name = jsToLower field).map
      ColumnDef.name

/-- `getColType(columns, colName)`: exact-name lookup, defaulting to
`string`. -/
def getColType (columns : List ColumnDef) (colName : String) : String :=
  ((columns.find? fun c => c.name = colName).map ColumnDef.type).getD "string"

/-- `coerceBoolean(value)`: `/^(true|1)$/i` gives 1, `/^(false|0)$/i`
gives 0, otherwise `none`. -/
def coerceBoolean (value : String) : Option Int :=
  if jsToLower value = "true" ∨ value = "1" then some 1
  else if jsToLower value = "false" ∨ value = "0" then some 0
  else none

/-- Does the term carry `/pattern/` delimiters (length ≥ 2, starts and ends
with a slash)?  Mirrors the term-shape part of `isRegexNode`. -/
def slashDelimited (term : String) : Bool :=
  term.data.length ≥ 2 ∧ term.data.head? = some '/'
    ∧ term.data.getLast? = some '/'

/-- `extractRegexPattern`: strip the delimiting slashes from a
slash-delimited term (the term is passed raw when the parser flagged it as
a regex node). -/
def stripSlashes (term : String) : String :=
  if term.data.head? = some '/' ∧ term.data.getLast? = some '/' then
    ⟨term.data.tail.dropLast⟩
  else term

/-- `buildComparisonForNumeric(colName, rawTerm, params)`: an optional
leading comparison operator (`>=`, `<=`, `>`, `<`, in the source regex's
alternation order) with `parseFloat` of the remainder, else equality when
`Number(rawTerm)` is not `NaN`.  Returns the SQL fragment and the pushed
parameter, or `none`. -/
def buildComparisonForNumeric (colName rawTerm : String) :
    Option (String × BindVal) :=
  let opSplit : Option (String × String) :=
    match rawTerm.data with
    | '>' :: '=' :: rest => if rest.isEmpty then none else some (">=", ⟨rest⟩)
    | '<' :: '=' :: rest => if rest.isEmpty then none else some ("<=", ⟨rest⟩)
    | '>' :: rest => if rest.isEmpty then none else some (">", ⟨rest⟩)
    | '<' :: rest => if rest.isEmpty then none else some ("<", ⟨rest⟩)
    | _ => none
  match opSplit with
  | some (op, rest) =>
    let v : BindVal :=
      match jsParseFloat rest with
      | some q => .num q
      | none => .nan
    some (colName ++ " " ++ op ++ " ?", v)
  | none =>
    match jsNumber rawTerm with
    | some q => some (colName ++ " = ?", .num q)
    | none => none

/-- The parser-output shapes `buildWhereFromNode` inspects: a single
(possibly fielded, possibly negation-prefixed, possibly regex) term, a
binary operator node, or a wrapper node carrying only `left`. -/
inductive QNode where
  | leaf (field : Option String) (bang : Option String) (term : String)
      (regexpr : Bool)
  | binary (left : QNode) (op : String) (right : QNode)
  | wrapper (left : QNode)
  deriving DecidableEq, Repr

/-- The compilation of one leaf node (the fielded-term and bare-term
branches of `buildWhereFromNode`, including the `!`-negation handling). -/
def leafWhere (columns : List ColumnDef) (field bang : Option String)
    (term : String) (regexpr : Bool) (params : List BindVal) :
    String × List BindVal :=
  let negate0 : Bool := bang = some "!"
  let negate : Bool :=
    negate0 || (match field with
      | some f => f.data.head? = some '!'
      | none => false)
  let field' : Option String :=
    match field with
    | some f => if f.data.head? = some '!' then some ⟨f.data.tail⟩ else some f
    | none => none
  let isRegex : Bool := regexpr || slashDelimited term
  let pattern := if regexpr then term else stripSlashes term
  let wrapNeg (s : String) : String :=
    if negate then "(NOT " ++ s ++ ")" else s
  match field' with
  | some f =>
    if f = "" then
      -- falsy field: bare-term branch
      if isRegex then
        (wrapNeg ("title REGEXP ?"), params ++ [.str pattern])
      else
        (wrapNeg ("title LIKE ? COLLATE NOCASE"),
          params ++ [.str ("%" ++ term ++ "%")])
    else
      let colName0 := (resolveFieldName f columns).getD "title"
      let colName := if f = "<implicit>" then "title" else colName0
      let colType := getColType columns colName
      if isRegex then
        (wrapNeg (colName ++ " REGEXP ?"), params ++ [.str pattern])
      else if numericTypes.contains colType then
        let boolCase : Option (String × List BindVal) :=
          if colType = "boolean" then
            match coerceBoolean term with
            | some b =>
              some (wrapNeg (colName ++ " = ?"), params ++ [.num (b : Rat)])
            | none => none
          else none
        match boolCase with
        | some r => r
        | none =>
          match buildComparisonForNumeric colName term with
          | some (sql, v) => (wrapNeg sql, params ++ [v])
          | none =>
            (wrapNeg (colName ++ " LIKE ? COLLATE NOCASE"),
              params ++ [.str ("%" ++ term ++ "%")])
      else
        (wrapNeg (colName ++ " LIKE ? COLLATE NOCASE"),
          params ++ [.str ("%" ++ term ++ "%")])
  | none =>
    if isRegex then
      (wrapNeg ("title REGEXP ?"), params ++ [.str pattern])
    else
      (wrapNeg ("title LIKE ? COLLATE NOCASE"),
        params ++ [.str ("%" ++ term ++ "%")])

/-- `buildWhereFromNode(node, params, columns)`: recursive lowering of the
parsed tree, threading the bind-parameter list left to right. -/
def buildWhere (columns : List ColumnDef) :
    QNode → List BindVal → String × List BindVal
  | .wrapper inner, params => buildWhere columns inner params
  | .binary l op r, params =>
    let (leftSQL, params1) := buildWhere columns l params
    let (rightSQL, params2) := buildWhere columns r params1
    ("(" ++ leftSQL ++ " " ++ jsToUpper op ++ " " ++ rightSQL ++ ")", params2)
  | .leaf field bang term regexpr, params =>
    leafWhere columns field bang term regexpr params

/-- The outcome of `lucene.parse` on the (preprocessed) query string:
an exception, a bare string, or a node. -/
inductive LuceneOutcome where
  | fail
  | strResult (s : String)
  | node (n : QNode)
  deriving DecidableEq, Repr

/-- Join a list of strings with a separator (JS `Array.prototype.join`). -/
def joinSep (sep : String) : List String → String
  | [] => ""
  | [x] => x
  | x :: y :: rest => x ++ sep ++ joinSep sep (y :: rest)

/-- `parseSearchQuery(queryString, columns)`, with the external parser's
outcome supplied explicitly.  A blank query compiles to the always-true
predicate; a parser exception triggers the whitespace-split title-LIKE
fallback over the **preprocessed** (and/or-uppercased) string. -/
def parseSearchQuery (outcome : LuceneOutcome) (queryString : String)
    (columns : List ColumnDef) : String × List BindVal :=
  if jsTrim queryString = "" then ("1", [])
  else
    let q2 := replaceAndOr queryString
    match outcome with
    | .fail =>
      let terms := jsSplitWs q2
      (joinSep " AND " (terms.map fun _ => "title LIKE ? COLLATE NOCASE"),
        terms.map fun term => .str ("%" ++ term ++ "%"))
    | .strResult s => buildWhere columns (.leaf none none s false) []
    | .node n => buildWhere columns n []

/-! ## Row values, the validator and `patchRow`
(`src/db/row-functions.ts`, `src/utils/process-tag-value.ts`) -/

/-- A JSON payload value. -/
inductive Value where
  | num (q : Rat)
  | str (s : String)
  | bool (b : Bool)
  | null
  deriving DecidableEq, Repr

/-- Error outcomes of validation and row patching; each constructor is one
`throw` site. -/
inductive RowError where
  | tagsMustBeString (col : String)
  | tagNotRegistered (tag : String) (col : String)
  | mustBeBoolean
  | mustBeInteger
  | mustBeFloat
  | mustBeDate
  | ratingRange
  | advRatingRange
  | customMustBeString
  | invalidRule (rule : String)
  | ruleMismatch (value : String)
  | linkMustBeString
  | linkFormat
  | unknownColumnType (t : String)
  | colNotInTable (col : String)
  | titleBlank
  deriving DecidableEq, Repr

/-- External JS facilities the validator consults: `new RegExp(r)`
compilation, `regex.test(v)`, and the `JSON.parse` + shape check of the
`link` type.  These are engine behaviour, not repository code, so they are
parameters of the model. -/
structure JsOracle where
  regexCompiles : String → Bool
  regexMatches : String → String → Bool
  linkShapeOk : String → Bool

/-- An oracle that accepts everything (used to instantiate theorems whose
inputs never reach the oracle). -/
def trivialOracle : JsOracle :=
  { regexCompiles := fun _ => true, regexMatches := fun _ _ => true,
    linkShapeOk := fun _ => true }

/-- Code-unit-wise string comparison (JS default `Array.prototype.sort`
order; identical to code-point order on the ASCII tags the system
normalizes to). -/
def charListLe : List Char → List Char → Bool
  | [], _ => true
  | _ :: _, [] => false
  | a :: as, b :: bs => if a = b then charListLe as bs else a.toNat < b.toNat

/-- String order for sorting tag lists. -/
def strLe (a b : String) : Bool := charListLe a.data b.data

/-- Insert into a sorted list. -/
def insertSorted (x : String) : List String → List String
  | [] => [x]
  | y :: ys => if strLe x y then x :: y :: ys else y :: insertSorted x ys

/-- Sort a string list (the result of JS `.sort()`; after deduplication the
sorted list is unique, so any correct sort produces it). -/
def sortStrs (l : List String) : List String := l.foldr insertSorted []

/-- `Array.from(new Set(xs))`: deduplicate keeping first occurrences. -/
def jsSetDedup : List String → List String
  | [] => []
  | x :: rest => x :: (jsSetDedup rest).filter fun y => ¬ y = x

/-- Steps 1–2 of `processTagValue`: split the raw string on whitespace,
normalize each token, drop empties (`filter(Boolean)`). -/
def normTokens (raw : String) : List String :=
  ((if jsTrim raw = "" then [] else jsSplitWs raw).map normalizeName).filter
    fun t => ¬ t = ""

/-- The registered tag names of a column (`(colMeta.tags ?? []).map(t =>
t.name)`). -/
def allowedNames (col : ColumnDef) : List String :=
  (col.tags.getD []).map TagDef.name

/-- Step 3 of `processTagValue`: the first token missing from the allowed
list, if any (the source throws at the first offender). -/
def firstUnregistered (allowed : List String) : List String → Option String
  | [] => none
  | t :: rest =>
    if allowed.contains t then firstUnregistered allowed rest else some t

/-- `processTagValue(colMeta, rawValue)` from
`src/utils/process-tag-value.ts`: split, normalize, check against the
vocabulary, deduplicate, sort, rejoin with spaces.  The current source has
no `single_tag`-specific branch: both tag types are processed alike. -/
def processTagValue (col : ColumnDef) (rawValue : Value) :
    Except RowError String :=
  match rawValue with
  | .str raw =>
    let normalized := normTokens raw
    match firstUnregistered (allowedNames col) normalized with
    | some tag => .error (.tagNotRegistered tag col.name)
    | none => .ok (joinSep " " (sortStrs (jsSetDedup normalized)))
  | _ => .error (.tagsMustBeString col.name)

/-- `validateColumnValue(colMeta, value)`: the per-type switch. -/
def validateColumnValue (o : JsOracle) (col : ColumnDef) (value : Value) :
    Except RowError Value :=
  if col.type = "string" ∨ col.type = "rich_text" then .ok value
  else if col.type = "boolean" then
    match value with
    | .num q => if q = 0 ∨ q = 1 then .ok value else .error .mustBeBoolean
    | _ => .error .mustBeBoolean
  else if col.type = "integer" then
    match value with
    | .num q => if q.den = 1 then .ok value else .error .mustBeInteger
    | _ => .error .mustBeInteger
  else if col.type = "float" then
    match value with
    | .num _ => .ok value
    | _ => .error .mustBeFloat
  else if col.type = "date" then
    match value with
    | .num q => if 0 < q.num then .ok value else .error .mustBeDate
    | _ => .error .mustBeDate
  else if col.type = "rating" then
    match value with
    | .num q =>
      if q.den = 1 ∧ 0 ≤ q.num ∧ q.num ≤ 5 then .ok value
      else .error .ratingRange
    | _ => .error .ratingRange
  else if col.type = "advanced_rating" then
    match value with
    | .num q =>
      if 0 ≤ q.num ∧ q.num ≤ 10 * (q.den : Int) then .ok value
      else .error .advRatingRange
    | _ => .error .advRatingRange
  else if col.type = "multi_tag" ∨ col.type = "single_tag" then
    (processTagValue col value).map Value.str
  else if col.type = "custom" then
    match value with
    | .str s =>
      match col.rule with
      | some r =>
        if r = "" then .ok value
        else if ¬ o.regexCompiles r then .error (.invalidRule r)
        else if ¬ o.regexMatches r s then .error (.ruleMismatch s)
        else .ok value
      | none => .ok value
    | _ => .error .customMustBeString
  else if col.type = "link" then
    match value with
    | .str s => if o.linkShapeOk s then .ok value else .error .linkFormat
    | _ => .error .linkMustBeString
  else .error (.unknownColumnType col.type)

/-- JS object assignment `obj[k] = v` on an insertion-ordered map. -/
def upsertVal (k : String) (v : Value) (l : List (String × Value)) :
    List (String × Value) :=
  if (l.map Prod.fst).contains k then
    l.map fun p => if p.1 = k then (p.1, v) else p
  else l ++ [(k, v)]

/-- The raw keys `patchRow` silently drops (checked **before**
normalization). -/
def patchExcluded : List String := ["id", "date_modified", "hidden"]

/-- `patchRow`'s key-filtering/normalization loop: skip excluded raw keys,
assign the rest under their normalized names. -/
def normEntriesGo (acc : List (String × Value)) :
    List (String × Value) → List (String × Value)
  | [] => acc
  | (k, v) :: rest =>
    if patchExcluded.contains k then normEntriesGo acc rest
    else normEntriesGo (upsertVal (normalizeName k) v acc) rest

/-- Generic association-list lookup for value maps. -/
def lookupVal (l : List (String × Value)) (k : String) : Option Value :=
  (l.find? fun p => p.1 = k).map Prod.snd

/-- `patchRow`'s validation loop: every normalized key must be a column of
the table; each value is validated (and possibly coerced) in order. -/
def validateEntries (o : JsOracle) (t : Table) :
    List (String × Value) → Except RowError (List (String × Value))
  | [] => .ok []
  | (k, v) :: rest =>
    match lookupCol t.columns k with
    | none => .error (.colNotInTable k)
    | some m =>
      match validateColumnValue o (toColumnDef k m) v with
      | .error e => .error e
      | .ok v' => (validateEntries o t rest).map fun l => (k, v') :: l

/-- `String(v).trim() === ''`: only string values can stringify to blank
(numbers, booleans and `null` stringify to non-blank text). -/
def blankStr (v : Value) : Bool :=
  match v with
  | .str s => jsTrim s = ""
  | _ => false

/-- `patchRow(dbId, table, rowId, data)` modelled as the list of SET
assignments sent to storage on success: the validated normalized entries in
insertion order followed by the unconditional `date_modified = now`.  (The
source's `setClauses.length === 0` guard is dead code: `date_modified` is
pushed before it.) -/
def patchRow (o : JsOracle) (t : Table) (data : List (String × Value))
    (now : Int) : Except RowError (List (String × Value)) :=
  let nd := normEntriesGo [] data
  match validateEntries o t nd with
  | .error e => .error e
  | .ok vd =>
    let titleBlank : Bool :=
      if (vd.map Prod.fst).contains "title" then
        match lookupVal vd "title" with
        | some v => blankStr v
        | none => false
      else false
    if titleBlank then .error .titleBlank
    else .ok (vd ++ [("date_modified", .num (now : Rat))])

/-! ## The dense-permutation invariant

`Dense t` states the claim's invariant: the multiset of column indices is
exactly `{0, …, count−1}` — no gaps, no duplicates.  `WFKeys t` states the
JS-object guarantee that column keys are distinct. -/

/-- The decrement `deleteColumn` applies to each remaining index. -/
def decIdx (d x : Int) : Int := if d < x then x - 1 else x

/-- One structural column operation, as invoked through the API. -/
inductive ColOp where
  | create (rawName customType : String) (hidden : Bool) (index : Option Int)
  | move (colName : String) (newIndex : Int)
  | swap (colName : String) (targetIndex : Int)
  | del (rawName : String)
  deriving DecidableEq, Repr

/-- Apply one operation; since every `throw` in the source precedes the
metadata write, a failing call leaves the table unchanged. -/
def applyOp (t : Table) : ColOp → Table
  | .create rawName ty hid idx =>
    match createColumn t rawName ty hid idx with
    | .ok t' => t'
    | .error _ => t
  | .move colName newIndex =>
    match moveColumnIndex t colName newIndex with
    | .ok t' => t'
    | .error _ => t
  | .swap colName targetIndex =>
    match swapColumnIndex t colName targetIndex with
    | .ok t' => t'
    | .error _ => t
  | .del rawName =>
    match deleteColumn t rawName with
    | .ok t' => t'
    | .error _ => t

/-- Apply a sequence of operations in order. -/
def applyOps (t : Table) : List ColOp → Table
  | [] => t
  | op :: rest => applyOps (applyOp t op) rest

/-- The side condition under which one operation preserves density:
`createColumn` must not pass an out-of-place explicit index, and
`moveColumnIndex` must target a slot inside `0..count-1`.  Swap and delete
need no condition. -/
def goodOp (t : Table) : ColOp → Bool
  | .create _ _ _ none => true
  | .create _ _ _ (some i) => i = Int.ofNat t.columns.length
  | .move _ newIndex =>
    0 ≤ newIndex ∧ newIndex < Int.ofNat t.columns.length
  | .swap _ _ => true
  | .del _ => true

/-- `goodOp` holding at every step of a sequence (evaluated against the
table state at the time of each call). -/
def goodSeq : Table → List ColOp → Bool
  | _, [] => true
  | t, op :: rest => goodOp t op && goodSeq (applyOp t op) rest

/-! ## Concrete fixtures and remaining helper lemmas for the claims -/

/-- A `multi_tag` column with registered vocabulary `{red, blue}`. -/
def colorCol : ColumnDef :=
  { name := "color", type := "multi_tag", index := 6,
    tags := some [⟨"red", ""⟩, ⟨"blue", ""⟩] }

/-- A `single_tag` column with registered vocabulary `{red, blue}`. -/
def genreCol : ColumnDef :=
  { name := "genre", type := "single_tag", index := 6,
    tags := some [⟨"red", ""⟩, ⟨"blue", ""⟩] }

/-- The metadata record of a `multi_tag` column with one registered tag
`jazz`. -/
def genreMeta : ColMeta :=
  { type := "multi_tag", index := 6, tags := some [⟨"jazz", ""⟩] }

/-- The standard table plus a `multi_tag` column `genre` holding one
registered tag `jazz`. -/
def tagTable : Table :=
  { hidden := false, columns := initTable.columns ++ [("genre", genreMeta)] }

/-- The standard table plus an unprotected `string` column `foo` at
index 6. -/
def fooTable : Table :=
  { hidden := false,
    columns := initTable.columns ++ [("foo", ⟨"string", false, 6, none, none⟩)] }

/-- Column list used by the query-compilation claims: `title`, an integer
column `count` and a date column `due`. -/
def searchCols : List ColumnDef :=
  [{ name := "title", type := "string", index := 1 },
   { name := "count", type := "integer", index := 6 },
   { name := "due", type := "date", index := 7 }]

/-- The whitespace-delimited tokens of a string as the claims describe
them: the maximal non-empty runs of non-whitespace characters.  (Spec-side
definition, used to state what the fallback is claimed to produce.) -/
def wsTokensCore : List Char → List Char → List String
  | [], run => if run.isEmpty then [] else [⟨run.reverse⟩]
  | c :: rest, run =>
    if c.isWhitespace then
      (if run.isEmpty then [] else [(⟨run.reverse⟩ : String)]) ++
        wsTokensCore rest []
    else wsTokensCore rest (c :: run)

/-- Whitespace-delimited (non-empty) tokens of a string. -/
def wsTokens (s : String) : List String := wsTokensCore s.data []

/-- The fallback output that claim C6 describes: one case-insensitive
title-substring clause per whitespace-delimited token of the input, with
bind parameter `%token%` per token in order.  (Spec-side definition.) -/
def claimedFallback (s : String) : String × List BindVal :=
  (joinSep " AND " ((wsTokens s).map fun _ => "title LIKE ? COLLATE NOCASE"),
    (wsTokens s).map fun tok => .str ("%" ++ tok ++ "%"))

/-- Column keys are pairwise distinct (true of every JS object). -/
def WFKeys (t : Table) : Prop := (keysOf t.columns).Nodup

/-- The indices of the table's columns are a permutation of
`0, …, count−1`. -/
def Dense (t : Table) : Prop :=
  (idxs t.columns).Perm ((List.range t.columns.length).map Int.ofNat)

instance (t : Table) : Decidable (WFKeys t) := by
  unfold WFKeys; infer_instance

instance (t : Table) : Decidable (Dense t) := by
  unfold Dense; infer_instance

lemma count_range_ofNat (n : Nat) (i : Int) :
    ((List.range n).map Int.ofNat).count i =
      if 0 ≤ i ∧ i < (n : Int) then 1 else 0 := by
  induction n with
  | zero =>
    simp only [List.range_zero, List.map_nil, List.count_nil, Nat.cast_zero]
    split_ifs <;> omega
  | succ n ih =>
    rw [List.range_succ, List.map_append, List.count_append, ih]
    simp only [List.map_cons, List.map_nil, List.count_cons, List.count_nil,
      beq_iff_eq, Nat.cast_succ, Int.ofNat_eq_natCast]
    split_ifs <;> omega

/-- `Dense` in terms of counts: each index in range occurs once, every
other integer never. -/
lemma dense_iff_count (t : Table) :
    Dense t ↔ ∀ i : Int, (idxs t.columns).count i =
      if 0 ≤ i ∧ i < (t.columns.length : Int) then 1 else 0 := by
  unfold Dense
  rw [List.perm_iff_count]
  constructor
  · intro h i
    rw [h i, count_range_ofNat]
  · intro h i
    rw [h i, count_range_ofNat]

lemma count_cons_int (z y : Int) (ys : List Int) :
    (y :: ys).count z = ys.count z + if z = y then 1 else 0 := by
  simp only [List.count_cons, beq_iff_eq]
  split_ifs <;> omega

lemma count_map_zero (f : Int → Int) (xs : List Int) (i : Int)
    (h : ∀ x, f x ≠ i) : (xs.map f).count i = 0 := by
  induction xs with
  | nil => simp
  | cons x rest ih =>
    have hx := h x
    rw [List.map_cons, count_cons_int, ih]
    split_ifs <;> omega

lemma count_map_one (f : Int → Int) (xs : List Int) (i a : Int)
    (h : ∀ x, f x = i ↔ x = a) : (xs.map f).count i = xs.count a := by
  induction xs with
  | nil => simp
  | cons x rest ih =>
    have hx := h x
    rw [List.map_cons, count_cons_int, count_cons_int, ih]
    split_ifs <;> omega

lemma count_map_two (f : Int → Int) (xs : List Int) (i a b : Int)
    (hab : a ≠ b) (h : ∀ x, f x = i ↔ x = a ∨ x = b) :
    (xs.map f).count i = xs.count a + xs.count b := by
  induction xs with
  | nil => simp
  | cons x rest ih =>
    have hx := h x
    rw [List.map_cons, count_cons_int, count_cons_int, count_cons_int, ih]
    split_ifs <;> omega

lemma keysOf_setIdx (k : String) (v : Int) (l : List (String × ColMeta)) :
    keysOf (setIdx k v l) = keysOf l := by
  unfold keysOf setIdx
  rw [List.map_map]
  apply List.map_congr_left
  intro p _
  by_cases h : p.1 = k <;> simp [h]

lemma length_setIdx (k : String) (v : Int) (l : List (String × ColMeta)) :
    (setIdx k v l).length = l.length := by
  simp [setIdx]

lemma setIdx_cons_eq (k : String) (v : Int) (c' : ColMeta)
    (rest : List (String × ColMeta)) :
    setIdx k v ((k, c') :: rest) =
      (k, { c' with index := v }) :: setIdx k v rest := by
  simp [setIdx]

lemma setIdx_cons_ne (k : String) (v : Int) (k' : String) (c' : ColMeta)
    (rest : List (String × ColMeta)) (h : k' ≠ k) :
    setIdx k v ((k', c') :: rest) = (k', c') :: setIdx k v rest := by
  simp [setIdx, h]

lemma removeCol_cons_eq (k : String) (c' : ColMeta)
    (rest : List (String × ColMeta)) :
    removeCol k ((k, c') :: rest) = removeCol k rest := by
  simp [removeCol]

lemma removeCol_cons_ne (k : String) (k' : String) (c' : ColMeta)
    (rest : List (String × ColMeta)) (h : k' ≠ k) :
    removeCol k ((k', c') :: rest) = (k', c') :: removeCol k rest := by
  simp [removeCol, h]

lemma idxs_cons (k : String) (c : ColMeta) (rest : List (String × ColMeta)) :
    idxs ((k, c) :: rest) = c.index :: idxs rest := rfl

lemma setIdx_not_mem (k : String) (v : Int) (l : List (String × ColMeta))
    (h : k ∉ l.map Prod.fst) : setIdx k v l = l := by
  induction l with
  | nil => rfl
  | cons p rest ih =>
    obtain ⟨k', c'⟩ := p
    simp only [List.map_cons, List.mem_cons, not_or] at h
    rw [setIdx_cons_ne _ _ _ _ _ (fun hc => h.1 hc.symm), ih h.2]

lemma removeCol_not_mem (k : String) (l : List (String × ColMeta))
    (h : k ∉ l.map Prod.fst) : removeCol k l = l := by
  induction l with
  | nil => rfl
  | cons p rest ih =>
    obtain ⟨k', c'⟩ := p
    simp only [List.map_cons, List.mem_cons, not_or] at h
    rw [removeCol_cons_ne _ _ _ _ (fun hc => h.1 hc.symm), ih h.2]

lemma mem_setIdx_self (k : String) (v : Int) (l : List (String × ColMeta))
    (c : ColMeta) (h : (k, c) ∈ l) :
    (k, { c with index := v }) ∈ setIdx k v l := by
  have := List.mem_map_of_mem
    (f := fun p : String × ColMeta =>
      if p.1 = k then (p.1, { p.2 with index := v }) else p) h
  simpa [setIdx] using this

lemma mem_setIdx_other (k : String) (v : Int) (l : List (String × ColMeta))
    (p : String × ColMeta) (h : p ∈ l) (hk : p.1 ≠ k) :
    p ∈ setIdx k v l := by
  have := List.mem_map_of_mem
    (f := fun q : String × ColMeta =>
      if q.1 = k then (q.1, { q.2 with index := v }) else q) h
  simpa [setIdx, hk] using this

lemma mem_cons_key_eq (rest : List (String × ColMeta)) (k : String)
    (c c' : ColMeta) (hnotin : k ∉ rest.map Prod.fst)
    (hm : (k, c) ∈ (k, c') :: rest) : c = c' := by
  rcases List.mem_cons.mp hm with h | h
  · exact congrArg Prod.snd h
  · exact absurd (List.mem_map_of_mem (f := Prod.fst) h) hnotin

lemma mem_cons_key_ne (rest : List (String × ColMeta)) (k k' : String)
    (c c' : ColMeta) (hk : k' ≠ k) (hm : (k, c) ∈ (k', c') :: rest) :
    (k, c) ∈ rest := by
  rcases List.mem_cons.mp hm with h | h
  · exact absurd (congrArg Prod.fst h).symm hk
  · exact h

/-- Count bookkeeping for an in-place index update: the updated column's
old index loses one occurrence, the new value gains one. -/
lemma setIdx_count (k : String) (v : Int) (l : List (String × ColMeta))
    (c : ColMeta) (hnd : (l.map Prod.fst).Nodup) (hm : (k, c) ∈ l)
    (i : Int) :
    (idxs (setIdx k v l)).count i + (if c.index = i then 1 else 0) =
      (idxs l).count i + (if v = i then 1 else 0) := by
  induction l with
  | nil => cases hm
  | cons p rest ih =>
    obtain ⟨k', c'⟩ := p
    simp only [List.map_cons, List.nodup_cons] at hnd
    by_cases hk : k' = k
    · subst hk
      have hc : c = c' := mem_cons_key_eq rest k' c c' hnd.1 hm
      subst hc
      rw [setIdx_cons_eq, setIdx_not_mem _ _ _ hnd.1, idxs_cons, idxs_cons,
        count_cons_int, count_cons_int]
      show (idxs rest).count i + (if i = v then 1 else 0) +
          (if c.index = i then 1 else 0) =
        (idxs rest).count i + (if i = c.index then 1 else 0) +
          (if v = i then 1 else 0)
      split_ifs <;> omega
    · have hm' : (k, c) ∈ rest := mem_cons_key_ne rest k k' c c' hk hm
      rw [setIdx_cons_ne _ _ _ _ _ hk, idxs_cons, idxs_cons, count_cons_int,
        count_cons_int]
      have := ih hnd.2 hm'
      omega

lemma removeCol_count (k : String) (l : List (String × ColMeta))
    (c : ColMeta) (hnd : (l.map Prod.fst).Nodup) (hm : (k, c) ∈ l)
    (i : Int) :
    (idxs (removeCol k l)).count i + (if c.index = i then 1 else 0) =
      (idxs l).count i := by
  induction l with
  | nil => cases hm
  | cons p rest ih =>
    obtain ⟨k', c'⟩ := p
    simp only [List.map_cons, List.nodup_cons] at hnd
    by_cases hk : k' = k
    · subst hk
      have hc : c = c' := mem_cons_key_eq rest k' c c' hnd.1 hm
      subst hc
      rw [removeCol_cons_eq, removeCol_not_mem _ _ hnd.1, idxs_cons,
        count_cons_int]
      split_ifs <;> omega
    · have hm' : (k, c) ∈ rest := mem_cons_key_ne rest k k' c c' hk hm
      rw [removeCol_cons_ne _ _ _ _ hk, idxs_cons, idxs_cons, count_cons_int,
        count_cons_int]
      have := ih hnd.2 hm'
      omega

lemma removeCol_length (k : String) (l : List (String × ColMeta))
    (c : ColMeta) (hnd : (l.map Prod.fst).Nodup) (hm : (k, c) ∈ l) :
    (removeCol k l).length + 1 = l.length := by
  induction l with
  | nil => cases hm
  | cons p rest ih =>
    obtain ⟨k', c'⟩ := p
    simp only [List.map_cons, List.nodup_cons] at hnd
    by_cases hk : k' = k
    · subst hk
      rw [removeCol_cons_eq, removeCol_not_mem _ _ hnd.1]
      simp
    · have hm' : (k, c) ∈ rest := mem_cons_key_ne rest k k' c c' hk hm
      rw [removeCol_cons_ne _ _ _ _ hk]
      have := ih hnd.2 hm'
      simp only [List.length_cons]
      omega

lemma lookupCol_mem (l : List (String × ColMeta)) (k : String) (c : ColMeta)
    (h : lookupCol l k = some c) : (k, c) ∈ l := by
  induction l with
  | nil => simp [lookupCol] at h
  | cons p rest ih =>
    obtain ⟨k', c'⟩ := p
    by_cases hk : k' = k
    · subst hk
      rw [lookupCol, if_pos rfl] at h
      rw [show c' = c from Option.some.inj h]
      exact List.mem_cons_self _ _
    · rw [lookupCol, if_neg hk] at h
      exact List.mem_cons_of_mem _ (ih h)

lemma lookupCol_eq_of_mem (l : List (String × ColMeta)) (k : String)
    (c : ColMeta) (hnd : (l.map Prod.fst).Nodup) (hm : (k, c) ∈ l) :
    lookupCol l k = some c := by
  induction l with
  | nil => cases hm
  | cons p rest ih =>
    obtain ⟨k', c'⟩ := p
    simp only [List.map_cons, List.nodup_cons] at hnd
    by_cases hk : k' = k
    · subst hk
      have hc : c = c' := mem_cons_key_eq rest k' c c' hnd.1 hm
      subst hc
      simp [lookupCol]
    · have hm' : (k, c) ∈ rest := mem_cons_key_ne rest k k' c c' hk hm
      rw [lookupCol, if_neg hk]
      exact ih hnd.2 hm'
lemma shiftIdx_self (o w : Int) (ho : 0 ≤ o) : shiftIdx o w o = o := by
  unfold shiftIdx
  split_ifs <;> omega

/-- The index multiset after `moveColumnIndex`'s shifting loop: the moved
column's old slot reappears, the target slot is vacated, everything else is
preserved. -/
lemma shift_count (o w : Int) (n : Nat) (xs : List Int)
    (ho : 0 ≤ o) (ho2 : o < (n : Int)) (hw : 0 ≤ w) (hw2 : w < (n : Int))
    (hne : o ≠ w)
    (hx : ∀ j : Int, xs.count j = if 0 ≤ j ∧ j < (n : Int) then 1 else 0)
    (i : Int) :
    (xs.map (shiftIdx o w)).count i + (if w = i then 1 else 0) =
      (if 0 ≤ i ∧ i < (n : Int) then 1 else 0) +
        (if o = i then 1 else 0) := by
  rcases lt_or_gt_of_ne hne with hlt | hgt
  · by_cases hio : i = o
    · rw [count_map_two (shiftIdx o w) xs i o (o + 1) (by omega)
        (by intro x; unfold shiftIdx; split_ifs <;> omega), hx o, hx (o + 1)]
      split_ifs <;> omega
    · by_cases hiw : i = w
      · rw [count_map_zero (shiftIdx o w) xs i
          (by intro x; unfold shiftIdx; split_ifs <;> omega)]
        split_ifs <;> omega
      · by_cases hmid : o < i ∧ i < w
        · rw [count_map_one (shiftIdx o w) xs i (i + 1)
            (by intro x; unfold shiftIdx; split_ifs <;> omega), hx (i + 1)]
          split_ifs <;> omega
        · rw [count_map_one (shiftIdx o w) xs i i
            (by intro x; unfold shiftIdx; split_ifs <;> omega), hx i]
          split_ifs <;> omega
  · by_cases hio : i = o
    · rw [count_map_two (shiftIdx o w) xs i o (o - 1) (by omega)
        (by intro x; unfold shiftIdx; split_ifs <;> omega), hx o, hx (o - 1)]
      split_ifs <;> omega
    · by_cases hiw : i = w
      · rw [count_map_zero (shiftIdx o w) xs i
          (by intro x; unfold shiftIdx; split_ifs <;> omega)]
        split_ifs <;> omega
      · by_cases hmid : w < i ∧ i < o
        · rw [count_map_one (shiftIdx o w) xs i (i - 1)
            (by intro x; unfold shiftIdx; split_ifs <;> omega), hx (i - 1)]
          split_ifs <;> omega
        · rw [count_map_one (shiftIdx o w) xs i i
            (by intro x; unfold shiftIdx; split_ifs <;> omega), hx i]
          split_ifs <;> omega


/-- The index multiset after `deleteColumn`'s decrement loop applied to the
remaining columns: `{0,…,n−1}` minus the deleted slot closes up to
`{0,…,n−2}`. -/
lemma dec_count (d : Int) (n : Nat) (xs : List Int)
    (hd : 0 ≤ d) (hd2 : d < (n : Int))
    (hx : ∀ j : Int, xs.count j + (if d = j then 1 else 0) =
      if 0 ≤ j ∧ j < (n : Int) then 1 else 0) (i : Int) :
    (xs.map (decIdx d)).count i =
      if 0 ≤ i ∧ i < (n : Int) - 1 then 1 else 0 := by
  by_cases hid : i = d
  · rw [count_map_two (decIdx d) xs i d (d + 1)
      (by omega) (by intro x; unfold decIdx; split_ifs <;> omega)]
    have h1 := hx d
    have h2 := hx (d + 1)
    split_ifs at * <;> omega
  · by_cases hlt : i < d
    · rw [count_map_one (decIdx d) xs i i
        (by intro x; unfold decIdx; split_ifs <;> omega)]
      have h1 := hx i
      split_ifs at * <;> omega
    · rw [count_map_one (decIdx d) xs i (i + 1)
        (by intro x; unfold decIdx; split_ifs <;> omega)]
      have h1 := hx (i + 1)
      split_ifs at * <;> omega

lemma idxs_append_single (l : List (String × ColMeta)) (k : String)
    (m : ColMeta) : idxs (l ++ [(k, m)]) = idxs l ++ [m.index] := by
  simp [idxs]

lemma count_append_single (xs : List Int) (a i : Int) :
    (xs ++ [a]).count i = xs.count i + if i = a then 1 else 0 := by
  rw [List.count_append, count_cons_int]
  simp

lemma keysOf_append_single (l : List (String × ColMeta)) (k : String)
    (m : ColMeta) : keysOf (l ++ [(k, m)]) = keysOf l ++ [k] := by
  simp [keysOf]

/-- `createColumn` preserves density when the explicit index is omitted or
equals the current column count (then the new column lands at slot `n`). -/
lemma createColumn_dense (t t' : Table) (rawName ty : String) (hid : Bool)
    (iOpt : Option Int)
    (hok : createColumn t rawName ty hid iOpt = .ok t')
    (hgood : iOpt = none ∨ iOpt = some (Int.ofNat t.columns.length))
    (hd : Dense t) : Dense t' := by
  have hidx : iOpt.getD ((t.columns.length : Nat) : Int) =
      ((t.columns.length : Nat) : Int) := by
    rcases hgood with h | h <;> simp [h]
  by_cases hdup : normalizeName rawName ∈ keysOf t.columns
  · simp [createColumn, hdup] at hok
  · rcases heq : (columnTypeMap.find? fun p => p.1 = ty).map Prod.snd with
      _ | v
    · simp [createColumn, hdup, heq] at hok
    · simp [createColumn, hdup, heq, hidx] at hok
      subst hok
      rw [dense_iff_count]
      intro i
      have hchar := (dense_iff_count t).mp hd i
      simp only [idxs_append_single, count_append_single, List.length_append,
        List.length_cons, List.length_nil]
      rw [hchar]
      push_cast
      split_ifs <;> omega

/-- `createColumn` keeps column keys distinct (it rejects duplicates). -/
lemma createColumn_wf (t t' : Table) (rawName ty : String) (hid : Bool)
    (iOpt : Option Int)
    (hok : createColumn t rawName ty hid iOpt = .ok t')
    (hwf : WFKeys t) : WFKeys t' := by
  by_cases hdup : normalizeName rawName ∈ keysOf t.columns
  · simp [createColumn, hdup] at hok
  · rcases heq : (columnTypeMap.find? fun p => p.1 = ty).map Prod.snd with
      _ | v
    · simp [createColumn, hdup, heq] at hok
    · simp [createColumn, hdup, heq] at hok
      subst hok
      unfold WFKeys at *
      rw [keysOf_append_single, List.nodup_append]
      refine ⟨hwf, List.nodup_singleton _, ?_⟩
      intro a ha hb
      rw [List.mem_singleton] at hb
      subst hb
      exact hdup ha

/-- `swapColumnIndex` preserves density: two existing index values trade
places. -/
lemma swapColumnIndex_dense (t t' : Table) (colName : String)
    (targetIndex : Int)
    (hok : swapColumnIndex t colName targetIndex = .ok t')
    (hwf : WFKeys t) (hd : Dense t) : Dense t' := by
  by_cases hprot : normalizeName colName ∈ untouchable
  · simp [swapColumnIndex, hprot] at hok
  · rcases heq : lookupCol t.columns (normalizeName colName) with _ | cm
    · simp [swapColumnIndex, hprot, heq] at hok
    · by_cases hneg : cm.index < 0
      · simp [swapColumnIndex, hprot, heq, hneg] at hok
      · rcases hfind : t.columns.find? (fun p => p.2.index = targetIndex)
          with _ | ⟨k2, c2⟩
        · simp [swapColumnIndex, hprot, heq, hneg, hfind] at hok
        · simp [swapColumnIndex, hprot, heq, hneg, hfind] at hok
          subst hok
          have hmem1 := lookupCol_mem _ _ _ heq
          have hmem2 := List.mem_of_find?_eq_some hfind
          have hc2idx : c2.index = targetIndex := by
            have h1 := List.find?_some hfind
            simpa using h1
          have hnd : (t.columns.map Prod.fst).Nodup := hwf
          have hndmid : ((setIdx (normalizeName colName) targetIndex
              t.columns).map Prod.fst).Nodup := by
            have hkeys := keysOf_setIdx (normalizeName colName) targetIndex
              t.columns
            unfold keysOf at hkeys
            rw [hkeys]
            exact hnd
          apply (dense_iff_count _).mpr
          intro i
          have hchar := (dense_iff_count t).mp hd i
          have step1 := setIdx_count (normalizeName colName) targetIndex
            t.columns cm hnd hmem1 i
          rw [hchar] at step1
          have hcols : (Table.mk t.hidden
              (setIdx k2 cm.index (setIdx (normalizeName colName) targetIndex
                t.columns))).columns =
              setIdx k2 cm.index (setIdx (normalizeName colName) targetIndex
                t.columns) := rfl
          rw [hcols, length_setIdx, length_setIdx]
          by_cases hk12 : k2 = normalizeName colName
          · have hlk2 : lookupCol t.columns k2 = some c2 :=
              lookupCol_eq_of_mem _ _ _ hnd hmem2
            rw [hk12, heq] at hlk2
            have hc2 : c2 = cm := (Option.some.inj hlk2).symm
            have hmemmid : (k2, { cm with index := targetIndex }) ∈
                setIdx (normalizeName colName) targetIndex t.columns := by
              rw [hk12]
              exact mem_setIdx_self _ _ _ _ hmem1
            have step2 := setIdx_count k2 cm.index
              (setIdx (normalizeName colName) targetIndex t.columns)
              { cm with index := targetIndex } hndmid hmemmid i
            have hreduce : ({ cm with index := targetIndex } : ColMeta).index
                = targetIndex := rfl
            rw [hreduce] at step2
            split_ifs at step1 step2 ⊢ <;> omega
          · have hmem2' : (k2, c2) ∈ setIdx (normalizeName colName)
                targetIndex t.columns :=
              mem_setIdx_other _ _ _ _ hmem2 hk12
            have step2 := setIdx_count k2 cm.index
              (setIdx (normalizeName colName) targetIndex t.columns)
              c2 hndmid hmem2' i
            rw [hc2idx] at step2
            split_ifs at step1 step2 ⊢ <;> omega

/-- `swapColumnIndex` does not change the key list. -/
lemma swapColumnIndex_wf (t t' : Table) (colName : String)
    (targetIndex : Int)
    (hok : swapColumnIndex t colName targetIndex = .ok t')
    (hwf : WFKeys t) : WFKeys t' := by
  by_cases hprot : normalizeName colName ∈ untouchable
  · simp [swapColumnIndex, hprot] at hok
  · rcases heq : lookupCol t.columns (normalizeName colName) with _ | cm
    · simp [swapColumnIndex, hprot, heq] at hok
    · by_cases hneg : cm.index < 0
      · simp [swapColumnIndex, hprot, heq, hneg] at hok
      · rcases hfind : t.columns.find? (fun p => p.2.index = targetIndex)
          with _ | ⟨k2, c2⟩
        · simp [swapColumnIndex, hprot, heq, hneg, hfind] at hok
        · simp [swapColumnIndex, hprot, heq, hneg, hfind] at hok
          subst hok
          unfold WFKeys at *
          rw [keysOf_setIdx, keysOf_setIdx]
          exact hwf

lemma idxs_mapShift (o w : Int) (l : List (String × ColMeta)) :
    idxs (l.map fun p =>
        (p.1, { p.2 with index := shiftIdx o w p.2.index })) =
      (idxs l).map (shiftIdx o w) := by
  unfold idxs
  rw [List.map_map, List.map_map]
  apply List.map_congr_left
  intro p _
  rfl

lemma keysOf_mapShift (o w : Int) (l : List (String × ColMeta)) :
    keysOf (l.map fun p =>
        (p.1, { p.2 with index := shiftIdx o w p.2.index })) = keysOf l := by
  unfold keysOf
  rw [List.map_map]
  apply List.map_congr_left
  intro p _
  rfl

lemma idxs_mapDec (d : Int) (l : List (String × ColMeta)) :
    idxs (l.map fun p =>
        if d < p.2.index then (p.1, { p.2 with index := p.2.index - 1 })
        else p) =
      (idxs l).map (decIdx d) := by
  unfold idxs decIdx
  rw [List.map_map, List.map_map]
  apply List.map_congr_left
  intro p _
  by_cases h : d < p.2.index <;> simp [h]

lemma keysOf_mapDec (d : Int) (l : List (String × ColMeta)) :
    keysOf (l.map fun p =>
        if d < p.2.index then (p.1, { p.2 with index := p.2.index - 1 })
        else p) = keysOf l := by
  unfold keysOf
  rw [List.map_map]
  apply List.map_congr_left
  intro p _
  by_cases h : d < p.2.index <;> simp [h]

/-- An index held by some column of a dense table lies in `[0, count)`. -/
lemma dense_index_bounds (t : Table) (hd : Dense t) (k : String)
    (c : ColMeta) (hm : (k, c) ∈ t.columns) :
    0 ≤ c.index ∧ c.index < (t.columns.length : Int) := by
  have hin : c.index ∈ idxs t.columns :=
    List.mem_map_of_mem (f := fun p => p.2.index) hm
  have hchar := (dense_iff_count t).mp hd c.index
  have hne : (idxs t.columns).count c.index ≠ 0 := by
    intro h0
    rw [List.count_eq_zero] at h0
    exact h0 hin
  split_ifs at hchar with hcond
  · exact hcond
  · exact absurd hchar hne

/-- `moveColumnIndex` preserves density when the destination is in range. -/
lemma moveColumnIndex_dense (t t' : Table) (colName : String) (w : Int)
    (hok : moveColumnIndex t colName w = .ok t')
    (hwf : WFKeys t) (hd : Dense t)
    (hw : 0 ≤ w) (hw2 : w < (t.columns.length : Int)) : Dense t' := by
  by_cases hprot : normalizeName colName ∈ untouchable
  · simp [moveColumnIndex, hprot] at hok
  · rcases heq : lookupCol t.columns (normalizeName colName) with _ | cm
    · simp [moveColumnIndex, hprot, heq] at hok
    · by_cases hneg : cm.index < 0
      · simp [moveColumnIndex, hprot, heq, hneg] at hok
      · by_cases hsame : cm.index = w
        · have hnegw : ¬ w < 0 := hsame ▸ hneg
          simp [moveColumnIndex, hprot, heq, hneg, hsame, hnegw] at hok
          subst hok
          exact hd
        · simp [moveColumnIndex, hprot, heq, hneg, hsame] at hok
          subst hok
          have hmem1 := lookupCol_mem _ _ _ heq
          have hnd : (t.columns.map Prod.fst).Nodup := hwf
          have hbounds := dense_index_bounds t hd _ _ hmem1
          set shifted := t.columns.map fun p =>
            (p.1, { p.2 with index := shiftIdx cm.index w p.2.index })
            with hshifted
          have hndsh : (shifted.map Prod.fst).Nodup := by
            have hkeys := keysOf_mapShift cm.index w t.columns
            unfold keysOf at hkeys
            rw [hshifted, hkeys]
            exact hnd
          have hmemsh : ((normalizeName colName),
              { cm with index := shiftIdx cm.index w cm.index }) ∈
              shifted := by
            rw [hshifted]
            exact List.mem_map_of_mem _ hmem1
          apply (dense_iff_count _).mpr
          intro i
          have hcols : (Table.mk t.hidden
              (setIdx (normalizeName colName) w shifted)).columns =
              setIdx (normalizeName colName) w shifted := rfl
          have hlen : (setIdx (normalizeName colName) w shifted).length =
              t.columns.length := by
            rw [length_setIdx, hshifted, List.length_map]
          rw [hcols, hlen]
          have step2 := setIdx_count (normalizeName colName) w shifted
            { cm with index := shiftIdx cm.index w cm.index } hndsh hmemsh i
          have hred : ({ cm with index := shiftIdx cm.index w cm.index } :
              ColMeta).index = cm.index := by
            show shiftIdx cm.index w cm.index = cm.index
            exact shiftIdx_self _ _ (by omega)
          rw [hred] at step2
          have hshiftcount := shift_count cm.index w t.columns.length
            (idxs t.columns) (by omega) hbounds.2 hw hw2 hsame
            (fun j => (dense_iff_count t).mp hd j) i
          have hidxssh : idxs shifted = (idxs t.columns).map
              (shiftIdx cm.index w) := by
            rw [hshifted]
            exact idxs_mapShift _ _ _
          rw [hidxssh] at step2
          split_ifs at step2 hshiftcount ⊢ <;> omega

/-- `moveColumnIndex` does not change the key list. -/
lemma moveColumnIndex_wf (t t' : Table) (colName : String) (w : Int)
    (hok : moveColumnIndex t colName w = .ok t')
    (hwf : WFKeys t) : WFKeys t' := by
  by_cases hprot : normalizeName colName ∈ untouchable
  · simp [moveColumnIndex, hprot] at hok
  · rcases heq : lookupCol t.columns (normalizeName colName) with _ | cm
    · simp [moveColumnIndex, hprot, heq] at hok
    · by_cases hneg : cm.index < 0
      · simp [moveColumnIndex, hprot, heq, hneg] at hok
      · by_cases hsame : cm.index = w
        · have hnegw : ¬ w < 0 := hsame ▸ hneg
          simp [moveColumnIndex, hprot, heq, hneg, hsame, hnegw] at hok
          subst hok
          exact hwf
        · simp [moveColumnIndex, hprot, heq, hneg, hsame] at hok
          subst hok
          unfold WFKeys at *
          rw [keysOf_setIdx, keysOf_mapShift]
          exact hwf

/-- `deleteColumn` preserves density: the deleted slot closes up. -/
lemma deleteColumn_dense (t t' : Table) (rawName : String)
    (hok : deleteColumn t rawName = .ok t')
    (hwf : WFKeys t) (hd : Dense t) : Dense t' := by
  by_cases hprot : normalizeName rawName ∈ untouchable
  · simp [deleteColumn, hprot] at hok
  · rcases heq : lookupCol t.columns (normalizeName rawName) with _ | cm
    · simp [deleteColumn, hprot, heq] at hok
    · have hmem1 := lookupCol_mem _ _ _ heq
      have hnd : (t.columns.map Prod.fst).Nodup := hwf
      have hbounds := dense_index_bounds t hd _ _ hmem1
      simp [deleteColumn, hprot, heq, hbounds.1] at hok
      subst hok
      set rest := removeCol (normalizeName rawName) t.columns with hrest
      have hlenrest : rest.length + 1 = t.columns.length := by
        rw [hrest]
        exact removeCol_length _ _ _ hnd hmem1
      have hx : ∀ j : Int, (idxs rest).count j +
          (if cm.index = j then 1 else 0) =
          if 0 ≤ j ∧ j < (t.columns.length : Int) then 1 else 0 := by
        intro j
        have step1 := removeCol_count (normalizeName rawName) t.columns cm
          hnd hmem1 j
        rw [(dense_iff_count t).mp hd j] at step1
        rw [hrest]
        exact step1
      apply (dense_iff_count _).mpr
      intro i
      have hcols : (Table.mk t.hidden (rest.map fun p =>
          if cm.index < p.2.index then
            (p.1, { p.2 with index := p.2.index - 1 })
          else p)).columns = rest.map fun p =>
          if cm.index < p.2.index then
            (p.1, { p.2 with index := p.2.index - 1 })
          else p := rfl
      rw [hcols, List.length_map]
      have hcount := dec_count cm.index t.columns.length (idxs rest)
        hbounds.1 hbounds.2 hx i
      have hidxs := idxs_mapDec cm.index rest
      rw [hidxs]
      rw [hcount]
      have hcast : ((rest.length : Nat) : Int) =
          (t.columns.length : Int) - 1 := by omega
      rw [hcast]

/-- `deleteColumn` keeps column keys distinct. -/
lemma deleteColumn_wf (t t' : Table) (rawName : String)
    (hok : deleteColumn t rawName = .ok t')
    (hwf : WFKeys t) : WFKeys t' := by
  by_cases hprot : normalizeName rawName ∈ untouchable
  · simp [deleteColumn, hprot] at hok
  · rcases heq : lookupCol t.columns (normalizeName rawName) with _ | cm
    · simp [deleteColumn, hprot, heq] at hok
    · have hndrest : ((removeCol (normalizeName rawName)
          t.columns).map Prod.fst).Nodup := by
        apply List.Nodup.sublist _ hwf
        apply List.Sublist.map
        exact List.filter_sublist _
      by_cases hd0 : 0 ≤ cm.index
      · simp [deleteColumn, hprot, heq, hd0] at hok
        subst hok
        unfold WFKeys at *
        have hkeys := keysOf_mapDec cm.index
          (removeCol (normalizeName rawName) t.columns)
        unfold keysOf at hkeys ⊢
        rw [hkeys]
        exact hndrest
      · simp [deleteColumn, hprot, heq, hd0] at hok
        subst hok
        exact hndrest


/-- One good operation preserves distinct keys and density. -/
lemma applyOp_invariant (t : Table) (op : ColOp)
    (hwf : WFKeys t) (hd : Dense t) (hg : goodOp t op = true) :
    WFKeys (applyOp t op) ∧ Dense (applyOp t op) := by
  cases op with
  | create rawName ty hid idx =>
    rcases hok : createColumn t rawName ty hid idx with e | t'
    · simp [applyOp, hok]
      exact ⟨hwf, hd⟩
    · simp only [applyOp, hok]
      have hgood : idx = none ∨ idx = some (Int.ofNat t.columns.length) := by
        cases idx with
        | none => exact Or.inl rfl
        | some i =>
          right
          simp [goodOp] at hg
          rw [hg]
          norm_cast
      exact ⟨createColumn_wf t t' _ _ _ _ hok hwf,
        createColumn_dense t t' _ _ _ _ hok hgood hd⟩
  | move colName newIndex =>
    rcases hok : moveColumnIndex t colName newIndex with e | t'
    · simp [applyOp, hok]
      exact ⟨hwf, hd⟩
    · simp only [applyOp, hok]
      simp [goodOp] at hg
      have hw1 : 0 ≤ newIndex := hg.1
      have hw2 : newIndex < ((t.columns.length : Nat) : Int) := by
        have h2 := hg.2
        omega
      exact ⟨moveColumnIndex_wf t t' _ _ hok hwf,
        moveColumnIndex_dense t t' _ _ hok hwf hd hw1 hw2⟩
  | swap colName targetIndex =>
    rcases hok : swapColumnIndex t colName targetIndex with e | t'
    · simp [applyOp, hok]
      exact ⟨hwf, hd⟩
    · simp only [applyOp, hok]
      exact ⟨swapColumnIndex_wf t t' _ _ hok hwf,
        swapColumnIndex_dense t t' _ _ hok hwf hd⟩
  | del rawName =>
    rcases hok : deleteColumn t rawName with e | t'
    · simp [applyOp, hok]
      exact ⟨hwf, hd⟩
    · simp only [applyOp, hok]
      exact ⟨deleteColumn_wf t t' _ hok hwf,
        deleteColumn_dense t t' _ hok hwf hd⟩

/-- Density (together with key distinctness) is preserved along any good
operation sequence. -/
lemma applyOps_invariant (ops : List ColOp) (t : Table)
    (hwf : WFKeys t) (hd : Dense t) (hg : goodSeq t ops = true) :
    WFKeys (applyOps t ops) ∧ Dense (applyOps t ops) := by
  induction ops generalizing t with
  | nil => exact ⟨hwf, hd⟩
  | cons op rest ih =>
    rw [goodSeq, Bool.and_eq_true] at hg
    have hstep := applyOp_invariant t op hwf hd hg.1
    exact ih (applyOp t op) hstep.1 hstep.2 hg.2


/-- Key-wise effect of `setIdx` on lookups: the targeted key's record gets
the new index, every other key is untouched. -/
lemma lookup_setIdx (l : List (String × ColMeta)) (k k' : String) (v : Int) :
    lookupCol (setIdx k' v l) k =
      (lookupCol l k).map fun c =>
        if k = k' then { c with index := v } else c := by
  induction l with
  | nil => simp [lookupCol, setIdx]
  | cons p rest ih =>
    obtain ⟨kh, ch⟩ := p
    by_cases hh : kh = k'
    · subst hh
      rw [setIdx_cons_eq]
      by_cases hk : kh = k
      · subst hk
        rw [lookupCol, if_pos rfl, lookupCol, if_pos rfl]
        simp
      · rw [lookupCol, if_neg hk, lookupCol, if_neg hk]
        exact ih
    · rw [setIdx_cons_ne _ _ _ _ _ hh]
      by_cases hk : kh = k
      · subst hk
        rw [lookupCol, if_pos rfl, lookupCol, if_pos rfl]
        simp only [Option.map_some']
        rw [if_neg hh]
      · rw [lookupCol, if_neg hk, lookupCol, if_neg hk]
        exact ih

/-- `processTagValue`'s vocabulary check reports the first token missing
from the allowed list. -/
lemma firstUnregistered_spec (allowed toks : List String)
    (h : ∃ u ∈ toks, u ∉ allowed) :
    ∃ u, u ∈ toks ∧ u ∉ allowed ∧
      firstUnregistered allowed toks = some u := by
  induction toks with
  | nil => obtain ⟨u, hu, _⟩ := h; cases hu
  | cons x rest ih =>
    by_cases hx : allowed.contains x
    · have hxmem : x ∈ allowed := by simpa using hx
      have hrest : ∃ u ∈ rest, u ∉ allowed := by
        obtain ⟨u, hu, hun⟩ := h
        rcases List.mem_cons.mp hu with rfl | hu'
        · exact absurd hxmem hun
        · exact ⟨u, hu', hun⟩
      obtain ⟨u, hu1, hu2, hu3⟩ := ih hrest
      refine ⟨u, List.mem_cons_of_mem _ hu1, hu2, ?_⟩
      rw [firstUnregistered, if_pos hx]
      exact hu3
    · refine ⟨x, List.mem_cons_self _ _, by simpa using hx, ?_⟩
      rw [firstUnregistered, if_neg hx]

/-- If some normalized token is unregistered, `processTagValue` fails and
the error names an offending (normalized, unregistered) token. -/
lemma processTagValue_offender (col : ColumnDef) (raw : String)
    (u : String) (hmem : u ∈ normTokens raw)
    (hnot : u ∉ allowedNames col) :
    ∃ v, v ∈ normTokens raw ∧ v ∉ allowedNames col ∧
      processTagValue col (.str raw) =
        .error (.tagNotRegistered v col.name) := by
  obtain ⟨v, hv1, hv2, hv3⟩ :=
    firstUnregistered_spec (allowedNames col) (normTokens raw) ⟨u, hmem, hnot⟩
  exact ⟨v, hv1, hv2, by simp [processTagValue, hv3]⟩

/-- `patchRow`'s key filter drops every entry whose raw key is excluded. -/
lemma normEntriesGo_all_excluded (data : List (String × Value))
    (acc : List (String × Value))
    (h : ∀ p ∈ data, p.1 ∈ patchExcluded) : normEntriesGo acc data = acc := by
  induction data generalizing acc with
  | nil => rfl
  | cons p rest ih =>
    obtain ⟨k, v⟩ := p
    have hk : patchExcluded.contains k = true := by
      simpa using h (k, v) (List.mem_cons_self _ _)
    rw [normEntriesGo, if_pos hk]
    exact ih acc fun q hq => h q (List.mem_cons_of_mem _ hq)


example : normalizeName "  A  b C " = "a_b_c" := by decide
example : wsTokens " x  y " = ["x", "y"] := by decide
example : jsSplitWs " x" = ["", "x"] := by decide
example : jsSplitWs "blue RED" = ["blue", "RED"] := by decide
example : replaceAndOr "x and y-or z android" = "x AND y-OR z android" := by
  decide
example : jsParseFloat "2024-01-10" = some 2024 := by decide
example : jsNumber "2024-01-10" = none := by decide
example : jsNumber "5" = some 5 := by decide

/-! ## Claim theorems -/

/-- **C1, counterexample.**  The claim asserts density survives any
sequence of operations *including `createColumn` calls that pass an
explicit index*.  On the standard dense table (indices 0–5), creating a
column with explicit index 7 succeeds and leaves the index set
`{0,…,5,7}` — a gap at 6: `createColumn` assigns the requested index
verbatim and reconciles nothing. -/
theorem C1_counterexample :
    Dense initTable ∧
    ¬ Dense (applyOps initTable
      [ColOp.create "foo" "string" false (some 7)]) := by
  constructor
  · decide
  · decide

/-- **C1, amended.**  For every table with distinct column keys whose
indices form a dense permutation of `{0,…,count−1}`, any sequence of
`createColumn` / `moveColumnIndex` / `swapColumnIndex` / `deleteColumn`
calls preserves the dense permutation, *provided* each `createColumn`
call omits the explicit index or passes exactly the current column count,
and each `moveColumnIndex` call targets an index inside `0..count−1`
(`goodSeq`).  Without those restrictions the invariant is broken (see the
counterexample). -/
theorem C1_dense_invariant (t : Table) (ops : List ColOp)
    (hwf : WFKeys t) (hd : Dense t) (hg : goodSeq t ops = true) :
    Dense (applyOps t ops) :=
  (applyOps_invariant ops t hwf hd hg).2

/-- **C1, witness.**  The amended invariant applied to the standard table
and a concrete sequence of one create (no explicit index), one in-range
move, one swap and one delete. -/
theorem C1_dense_invariant_witness :
    WFKeys initTable ∧ Dense initTable ∧
    goodSeq initTable
      [ColOp.create "foo" "string" false none, ColOp.move "foo" 2,
       ColOp.swap "foo" 5, ColOp.del "foo"] = true ∧
    Dense (applyOps initTable
      [ColOp.create "foo" "string" false none, ColOp.move "foo" 2,
       ColOp.swap "foo" 5, ColOp.del "foo"]) :=
  ⟨by decide, by decide, by decide,
    C1_dense_invariant initTable
      [ColOp.create "foo" "string" false none, ColOp.move "foo" 2,
       ColOp.swap "foo" 5, ColOp.del "foo"]
      (by decide) (by decide) (by decide)⟩

/-- **C2, counterexample.**  The claim asserts every tag mutation on a
protected column fails with a protected-column error and leaves metadata
unchanged.  In fact `unregisterTag` on the protected column `title`
**succeeds** (the source's inverted type guard only throws on tag-typed
columns) and rewrites the metadata: the `title` record acquires a
`tags: []` list (and the file is rewritten with a bumped `modifiedAt`). -/
theorem C2_counterexample :
    (unregisterTag initTable "title" "x").isOk = true ∧
    unregisterTag initTable "title" "x" ≠ Except.ok initTable := by
  constructor
  · decide
  · decide

/-- **C2, amended.**  Rename/retype (`updateColumnNameOrType`), move
(`moveColumnIndex`), swap (`swapColumnIndex`, as the named column) and
delete (`deleteColumn`) attempts on a protected column fail with the
protected-column error before any mutation.  Tag mutations behave
differently: `registerTag` on a protected (hence non-tag-typed) column
fails, but with a not-tag-typed error rather than a protected error,
while `unregisterTag` on such a column does not fail at all — it rewrites
the column's tag list.  (Every failing path throws before the metadata
file is written, so errors leave state unchanged.) -/
theorem C2_protected_behavior :
    (∀ (t : Table) (raw : String) (nn nt : Option String),
      normalizeName raw ∈ untouchable →
      updateColumnNameOrType t raw nn nt =
        .error (.protectedColumn (normalizeName raw))) ∧
    (∀ (t : Table) (raw : String) (i : Int),
      normalizeName raw ∈ untouchable →
      moveColumnIndex t raw i =
        .error (.protectedColumn (normalizeName raw))) ∧
    (∀ (t : Table) (raw : String) (i : Int),
      normalizeName raw ∈ untouchable →
      swapColumnIndex t raw i =
        .error (.protectedColumn (normalizeName raw))) ∧
    (∀ (t : Table) (raw : String),
      normalizeName raw ∈ untouchable →
      deleteColumn t raw = .error (.protectedColumn (normalizeName raw))) ∧
    (∀ (t : Table) (name tag descr : String) (c : ColMeta),
      lookupCol t.columns name = some c →
      c.type ≠ "single_tag" → c.type ≠ "multi_tag" →
      registerTag t name tag descr = .error (.notTagType name)) ∧
    (∀ (t : Table) (name tag : String) (c : ColMeta),
      lookupCol t.columns name = some c →
      c.type ≠ "single_tag" → c.type ≠ "multi_tag" →
      (unregisterTag t name tag).isOk = true) := by
  refine ⟨?_, ?_, ?_, ?_, ?_, ?_⟩
  · intro t raw nn nt h
    simp [updateColumnNameOrType, h]
  · intro t raw i h
    simp [moveColumnIndex, h]
  · intro t raw i h
    simp [swapColumnIndex, h]
  · intro t raw h
    simp [deleteColumn, h]
  · intro t name tag descr c hc h1 h2
    simp [registerTag, hc, h1, h2]
  · intro t name tag c hc h1 h2
    simp [unregisterTag, hc, h1, h2, Except.isOk, Except.toBool]

/-- **C2, witness.**  The amended statement instantiated on the standard
table's protected columns. -/
theorem C2_protected_behavior_witness :
    updateColumnNameOrType initTable "title" none none =
      .error (.protectedColumn "title") ∧
    moveColumnIndex initTable "id" 3 = .error (.protectedColumn "id") ∧
    swapColumnIndex initTable "hidden" 0 =
      .error (.protectedColumn "hidden") ∧
    deleteColumn initTable "date_created" =
      .error (.protectedColumn "date_created") ∧
    registerTag initTable "content" "x" "" =
      .error (.notTagType "content") ∧
    (unregisterTag initTable "content" "x").isOk = true := by
  refine ⟨?_, ?_, ?_, ?_, ?_, ?_⟩
  · have h := C2_protected_behavior.1 initTable "title" none none (by decide)
    rw [show normalizeName "title" = "title" from by decide] at h
    exact h
  · have h := C2_protected_behavior.2.1 initTable "id" 3 (by decide)
    rw [show normalizeName "id" = "id" from by decide] at h
    exact h
  · have h := C2_protected_behavior.2.2.1 initTable "hidden" 0 (by decide)
    rw [show normalizeName "hidden" = "hidden" from by decide] at h
    exact h
  · have h := C2_protected_behavior.2.2.2.1 initTable "date_created"
      (by decide)
    rw [show normalizeName "date_created" = "date_created" from by decide]
      at h
    exact h
  · exact C2_protected_behavior.2.2.2.2.1 initTable "content" "x" ""
      ⟨"rich_text", false, 2, none, none⟩ (by decide) (by decide) (by decide)
  · exact C2_protected_behavior.2.2.2.2.2 initTable "content" "x"
      ⟨"rich_text", false, 2, none, none⟩ (by decide) (by decide) (by decide)

/-- **C3 (code bug).**  On a table with a `multi_tag` column `genre`
(vocabulary `{jazz}`): `registerTag` behaves as specified (succeeds on the
tag column, rejects the duplicate `JAZZ` after normalization), but
`unregisterTag`'s type guard is inverted — it throws the error reading
"Column 'genre' is not of type 'tags'" precisely **because** `genre` IS
tag-typed, and conversely succeeds on the non-tag column `title`.  The
error message contradicts the condition that raises it. -/
theorem C3_unregister_inverted :
    (registerTag tagTable "genre" "rock" "").isOk = true ∧
    registerTag tagTable "genre" "JAZZ" "" =
      .error (.tagExists "jazz" "genre") ∧
    unregisterTag tagTable "genre" "jazz" =
      .error (.notTagType "genre") ∧
    (unregisterTag tagTable "title" "x").isOk = true := by
  refine ⟨?_, ?_, ?_, ?_⟩ <;> decide

/-- **C4, counterexample.**  The claim requires `due:2024-01-10` to
compile to an inclusive whole-day range (bind values = the day's first and
last milliseconds, 1704844800000 and 1704931199999) and `due:>2024-01-10`
to a strict bound at the day's last millisecond.  The compiler has no
date handling at all, so neither bind list matches. -/
theorem C4_counterexample :
    (parseSearchQuery (.node (.leaf (some "due") none "2024-01-10" false))
      "due:2024-01-10" searchCols).2 ≠
      [BindVal.num 1704844800000, BindVal.num 1704931199999] ∧
    (parseSearchQuery (.node (.leaf (some "due") none ">2024-01-10" false))
      "due:>2024-01-10" searchCols).2 ≠ [BindVal.num 1704931199999] := by
  constructor
  · decide
  · decide

/-- **C4, amended.**  Given the parser's AST for these queries (a fielded
term node), a `date` column is treated as merely numeric: `due:2024-01-10`
(whose term is not a parseable number — `Number('2024-01-10')` is `NaN`)
falls through to a case-insensitive substring match bound to
`%2024-01-10%`, and `due:>2024-01-10` compiles to `due > ?` bound to
`2024` (`parseFloat` reads only the leading year).  No day-boundary
expansion exists anywhere in the compiler. -/
theorem C4_date_compilation :
    parseSearchQuery (.node (.leaf (some "due") none "2024-01-10" false))
      "due:2024-01-10" searchCols =
      ("due LIKE ? COLLATE NOCASE", [.str "%2024-01-10%"]) ∧
    parseSearchQuery (.node (.leaf (some "due") none ">2024-01-10" false))
      "due:>2024-01-10" searchCols = ("due > ?", [.num 2024]) := by
  constructor
  · decide
  · decide

/-- **C5, counterexample.**  The claim says the swap fails whenever
*either* column involved is protected.  Only the *named* column is
checked: on the standard table plus `foo` (index 6), swapping `foo` with
target index 0 succeeds and drags the protected `id` column from index 0
to index 6. -/
theorem C5_counterexample :
    (swapColumnIndex fooTable "foo" 0).isOk = true ∧
    lookupCol (applyOp fooTable (.swap "foo" 0)).columns "id" =
      some ⟨"integer", false, 6, none, none⟩ ∧
    lookupCol (applyOp fooTable (.swap "foo" 0)).columns "foo" =
      some ⟨"string", false, 0, none, none⟩ := by
  refine ⟨?_, ?_, ?_⟩ <;> decide

/-- **C5, amended.**  `swapColumnIndex` fails with a protected-column
error when the **named** column is protected (the target column found by
index is never checked), fails with a no-column-at-index error when no
column holds the target index, and on success exchanges the index values
of the named column and the first column holding the target index,
leaving every other column untouched. -/
theorem C5_swap_behavior :
    (∀ (t : Table) (c : String) (j : Int),
      normalizeName c ∈ untouchable →
      swapColumnIndex t c j = .error (.protectedColumn (normalizeName c))) ∧
    (∀ (t : Table) (c : String) (j : Int) (cm : ColMeta),
      normalizeName c ∉ untouchable →
      lookupCol t.columns (normalizeName c) = some cm →
      ¬ cm.index < 0 →
      t.columns.find? (fun p => p.2.index = j) = none →
      swapColumnIndex t c j = .error (.noColumnAtIndex j)) ∧
    (∀ (t : Table) (c : String) (j : Int) (cm : ColMeta) (k2 : String)
        (c2 : ColMeta),
      WFKeys t →
      normalizeName c ∉ untouchable →
      lookupCol t.columns (normalizeName c) = some cm →
      ¬ cm.index < 0 →
      t.columns.find? (fun p => p.2.index = j) = some (k2, c2) →
      ∃ t', swapColumnIndex t c j = .ok t' ∧
        lookupCol t'.columns (normalizeName c) =
          some { cm with index := j } ∧
        (k2 ≠ normalizeName c →
          lookupCol t'.columns k2 = some { c2 with index := cm.index }) ∧
        (∀ k, k ≠ normalizeName c → k ≠ k2 →
          lookupCol t'.columns k = lookupCol t.columns k)) := by
  refine ⟨?_, ?_, ?_⟩
  · intro t c j h
    simp [swapColumnIndex, h]
  · intro t c j cm h1 h2 h3 h4
    simp [swapColumnIndex, h1, h2, h3, h4]
  · intro t c j cm k2 c2 hwf h1 heq h3 hfind
    have hok : swapColumnIndex t c j = Except.ok (Table.mk t.hidden
        (setIdx k2 cm.index (setIdx (normalizeName c) j t.columns))) := by
      simp [swapColumnIndex, h1, heq, h3, hfind]
    have hcols : (Table.mk t.hidden (setIdx k2 cm.index
        (setIdx (normalizeName c) j t.columns))).columns =
        setIdx k2 cm.index (setIdx (normalizeName c) j t.columns) := rfl
    have hc2idx : c2.index = j := by
      have h := List.find?_some hfind
      simpa using h
    have hc2mem := List.mem_of_find?_eq_some hfind
    refine ⟨_, hok, ?_, ?_, ?_⟩
    · rw [hcols, lookup_setIdx, lookup_setIdx, heq]
      by_cases hk : normalizeName c = k2
      · have hlk : lookupCol t.columns k2 = some c2 :=
          lookupCol_eq_of_mem _ _ _ hwf hc2mem
        rw [← hk, heq] at hlk
        have hc2 : c2 = cm := (Option.some.inj hlk).symm
        have hj : cm.index = j := by rw [← hc2, hc2idx]
        simp [hk, hj]
      · simp [hk]
    · intro hk2
      rw [hcols, lookup_setIdx, lookup_setIdx]
      have hlk : lookupCol t.columns k2 = some c2 :=
        lookupCol_eq_of_mem _ _ _ hwf hc2mem
      rw [hlk]
      simp [hk2]
    · intro k hk1 hk2
      rw [hcols, lookup_setIdx, lookup_setIdx]
      rcases lookupCol t.columns k with _ | ck
      · simp
      · simp [hk1, hk2]

/-- **C5, witness.**  The amended statement instantiated on concrete
tables: protected named column, missing target index, and a successful
swap with the protected `id` column as (unchecked) target. -/
theorem C5_swap_behavior_witness :
    swapColumnIndex initTable "title" 3 =
      .error (.protectedColumn "title") ∧
    swapColumnIndex fooTable "foo" 99 = .error (.noColumnAtIndex 99) ∧
    ∃ t', swapColumnIndex fooTable "foo" 0 = .ok t' := by
  refine ⟨?_, ?_, ?_⟩
  · have h := C5_swap_behavior.1 initTable "title" 3 (by decide)
    rw [show normalizeName "title" = "title" from by decide] at h
    exact h
  · exact C5_swap_behavior.2.1 fooTable "foo" 99
      ⟨"string", false, 6, none, none⟩ (by decide) (by decide) (by decide)
      (by decide)
  · obtain ⟨t', ht, _⟩ := C5_swap_behavior.2.2 fooTable "foo" 0
      ⟨"string", false, 6, none, none⟩ "id"
      ⟨"integer", false, 0, none, none⟩ (by decide) (by decide) (by decide)
      (by decide) (by decide)
    exact ⟨t', ht⟩

/-- **C6, counterexample.**  The claim describes the parse-failure
fallback as one title-LIKE clause per whitespace-delimited token of the
input with bind `%token%`.  The source splits with
`queryString.split(/\s+/)`, which yields an extra empty piece when the
string starts (or ends) with whitespace: on input `" x"` the fallback
produces two clauses with binds `["%%", "%x%"]`, not the claimed single
`["%x%"]`. -/
theorem C6_counterexample :
    parseSearchQuery .fail " x" [] ≠ claimedFallback " x" := by
  decide

/-- **C6, amended.**  For every input with non-blank trim on which the
grammar parser throws, `parseSearchQuery` returns (without raising, and
independently of the column list) the AND-conjunction of one
case-insensitive title-substring clause per element of the JS
whitespace-split of the *and/or-uppercased* input, with bind `%token%`
per element in order.  The split yields an extra empty token (bind `%%`)
for leading/trailing whitespace, and standalone `and`/`or` words appear
uppercased in the binds. -/
theorem C6_fallback (qs : String) (cols cols' : List ColumnDef)
    (h : jsTrim qs ≠ "") :
    parseSearchQuery .fail qs cols = parseSearchQuery .fail qs cols' ∧
    parseSearchQuery .fail qs cols =
      (joinSep " AND " (List.replicate (jsSplitWs (replaceAndOr qs)).length
        "title LIKE ? COLLATE NOCASE"),
       (jsSplitWs (replaceAndOr qs)).map fun tok =>
         BindVal.str ("%" ++ tok ++ "%")) := by
  constructor
  · rfl
  · rw [parseSearchQuery, if_neg h]
    simp [List.map_const']

/-- **C6, witness.**  The amended fallback applied to a concrete failing
query, with two different column lists. -/
theorem C6_fallback_witness :
    jsTrim "alpha beta" ≠ "" ∧
    (parseSearchQuery .fail "alpha beta" [] =
        parseSearchQuery .fail "alpha beta" searchCols ∧
      parseSearchQuery .fail "alpha beta" [] =
        (joinSep " AND "
          (List.replicate (jsSplitWs (replaceAndOr "alpha beta")).length
            "title LIKE ? COLLATE NOCASE"),
         (jsSplitWs (replaceAndOr "alpha beta")).map fun tok =>
           BindVal.str ("%" ++ tok ++ "%"))) :=
  ⟨by decide, C6_fallback "alpha beta" [] searchCols (by decide)⟩

/-- **C7 (confirmed).**  For an integer column `count` (given the
parser's fielded-term AST for these queries), `count:>=5` compiles to
`count >= ?` with bind list `[5]`, and `count:5` compiles to the equality
`count = ?` with bind list `[5]`. -/
theorem C7_numeric_compilation :
    parseSearchQuery (.node (.leaf (some "count") none ">=5" false))
      "count:>=5" searchCols = ("count >= ?", [.num 5]) ∧
    parseSearchQuery (.node (.leaf (some "count") none "5" false))
      "count:5" searchCols = ("count = ?", [.num 5]) := by
  constructor
  · decide
  · decide

/-- **C8 (confirmed).**  On a `multi_tag` column with vocabulary
`{red, blue}`: validating `"blue RED"` yields the normalized,
deduplicated, sorted, space-joined `"blue red"` (both directly through
`processTagValue` and through `validateColumnValue`'s tag dispatch); and
for every input one of whose normalized tokens is not in the vocabulary,
validation fails with an error naming an offending token. -/
theorem C8_tag_roundtrip :
    processTagValue colorCol (.str "blue RED") = .ok "blue red" ∧
    (∀ o : JsOracle, validateColumnValue o colorCol (.str "blue RED") =
      .ok (.str "blue red")) ∧
    (∀ raw u : String, u ∈ normTokens raw → u ∉ allowedNames colorCol →
      ∃ v, v ∈ normTokens raw ∧ v ∉ allowedNames colorCol ∧
        processTagValue colorCol (.str raw) =
          .error (.tagNotRegistered v "color")) := by
  refine ⟨?_, ?_, ?_⟩
  · decide
  · intro o
    have h1 : processTagValue colorCol (.str "blue RED") = .ok "blue red" :=
      by decide
    simp [validateColumnValue, show colorCol.type = "multi_tag" from rfl, h1,
      Except.map]
  · intro raw u hmem hnot
    obtain ⟨v, h1, h2, h3⟩ := processTagValue_offender colorCol raw u hmem
      hnot
    exact ⟨v, h1, h2, h3⟩

/-- **C8, witness.**  The round-trip instantiated: the oracle-independent
dispatch at the trivial oracle, and the failure case on input
`"blue green"`, whose token `green` is not registered. -/
theorem C8_tag_roundtrip_witness :
    validateColumnValue trivialOracle colorCol (.str "blue RED") =
      .ok (.str "blue red") ∧
    "green" ∈ normTokens "blue green" ∧
    "green" ∉ allowedNames colorCol ∧
    ∃ v, v ∈ normTokens "blue green" ∧ v ∉ allowedNames colorCol ∧
      processTagValue colorCol (.str "blue green") =
        .error (.tagNotRegistered v "color") :=
  ⟨C8_tag_roundtrip.2.1 trivialOracle, by decide, by decide,
    C8_tag_roundtrip.2.2 "blue green" "green" (by decide) (by decide)⟩

/-- **C9 (code bug).**  The current `processTagValue` has no
`single_tag` cardinality check: on a `single_tag` column with vocabulary
`{red, blue}`, validating `"red blue"` (two tokens) is **accepted** and
returns `"blue red"` — the multi-token value is stored — both directly
and through `validateColumnValue`'s dispatch.  (The type catalog comments
`single_tag` as a "single-select list", and the spec requires rejection;
the `multi_tag` dedup+sort half of the claim does hold, third
conjunct.) -/
theorem C9_single_tag_no_limit :
    processTagValue genreCol (.str "red blue") = .ok "blue red" ∧
    validateColumnValue trivialOracle genreCol (.str "red blue") =
      .ok (.str "blue red") ∧
    processTagValue colorCol (.str "blue blue RED") = .ok "blue red" := by
  refine ⟨?_, ?_, ?_⟩ <;> decide

/-- **C10, counterexample.**  The claim says a row-data patch can never
change the row's identifier regardless of the supplied payload.  The
exclusion list is checked against the *raw* keys before normalization, so
the payload key `"Id"` (normalized to `"id"`) slips through, is validated
against the integer `id` column, and is written: the UPDATE sets
`id = 99`. -/
theorem C10_counterexample :
    patchRow trivialOracle initTable [("Id", .num 99)] 77 =
      .ok [("id", .num 99), ("date_modified", .num 77)] := by
  decide

/-- **C10, amended.**  `patchRow` silently removes exactly the raw keys
`id`, `date_modified` and `hidden` (no error for them; a payload of only
such keys still succeeds and writes only the fresh `date_modified = now`).
Other supplied fields are validated and written, and `date_modified` is
always set.  But keys that merely *normalize* to a protected name — such
as `" ID "` — bypass the filter and are validated and written, so a patch
can change the row's identifier or hidden flag. -/
theorem C10_patch_filtering :
    (∀ (o : JsOracle) (t : Table) (data : List (String × Value))
        (now : Int),
      (∀ p ∈ data, p.1 = "id" ∨ p.1 = "date_modified" ∨ p.1 = "hidden") →
      patchRow o t data now = .ok [("date_modified", .num (now : Rat))]) ∧
    patchRow trivialOracle initTable
      [("title", .str "hi"), ("id", .num 1), ("hidden", .num 1),
       ("date_modified", .num 2)] 77 =
      .ok [("title", .str "hi"), ("date_modified", .num 77)] ∧
    patchRow trivialOracle initTable [(" ID ", .num 5)] 77 =
      .ok [("id", .num 5), ("date_modified", .num 77)] := by
  refine ⟨?_, ?_, ?_⟩
  · intro o t data now h
    have hexc : ∀ p ∈ data, p.1 ∈ patchExcluded := by
      intro p hp
      rcases h p hp with h1 | h1 | h1 <;> simp [patchExcluded, h1]
    have hnorm : normEntriesGo [] data = [] :=
      normEntriesGo_all_excluded data [] hexc
    simp [patchRow, hnorm, validateEntries, lookupVal, blankStr]
  · decide
  · decide

/-- **C10, witness.**  The all-excluded-keys case of the amended claim at
a concrete payload. -/
theorem C10_patch_filtering_witness :
    (∀ p ∈ ([("id", Value.num 3), ("hidden", Value.num 1)] :
        List (String × Value)),
      p.1 = "id" ∨ p.1 = "date_modified" ∨ p.1 = "hidden") ∧
    patchRow trivialOracle initTable
      [("id", Value.num 3), ("hidden", Value.num 1)] 9 =
      .ok [("date_modified", .num ((9 : Int) : Rat))] :=
  ⟨by decide,
    C10_patch_filtering.1 trivialOracle initTable
      [("id", Value.num 3), ("hidden", Value.num 1)] 9 (by decide)⟩

end AtomCrud
